import Mathlib

/-!
# Verification of the `rt` ray tracer core

A shallow embedding of the Rust sources (`vector.rs`, `ray.rs`, `objects.rs`,
`light.rs`, `material.rs`, `camera.rs`, `image.rs`, `scene.rs`) over the real
numbers, followed by theorems settling the specification claims.

Modelling conventions:
* `f64` is modelled as `ℝ` (exact real arithmetic; IEEE-754 rounding, `NaN`
  and `±∞` are outside the model — Lean's `x / 0 = 0` replaces IEEE's
  `±∞`/`NaN` results, which only matters on degenerate inputs).
* `f64::INFINITY`, used as an upper ray-parameter bound, is modelled by `⊤`
  of `WithTop ℝ`; all upper bounds `t_max` are `WithTop ℝ` since they are
  only ever compared, never used arithmetically.
* Rust's `f64::min`/`f64::max` agree with `min`/`max` on `ℝ` (no NaNs here),
  `f64::signum` is `if x < 0 then -1 else 1` on non-NaN values (Rust maps
  `+0.0` to `1.0`), and `f64::clamp lo hi` is the two-sided conditional.
* Rayon's ordered parallel collect in `Scene::render` is modelled as the
  order-preserving pure map it is documented to be.
-/

noncomputable section

/-- `f64::signum` for non-NaN inputs: `+0.0` maps to `1.0`. -/
def rsignum (x : ℝ) : ℝ := if x < 0 then -1 else 1

/-- `f64::clamp(self, lo, hi)` for non-NaN inputs. -/
def rclamp (x lo hi : ℝ) : ℝ := if x < lo then lo else if x > hi then hi else x

/-- `Vec3` from `vector.rs`: three `f64` components. -/
@[ext] structure Vec3 where
  x : ℝ
  y : ℝ
  z : ℝ

namespace Vec3

def zero : Vec3 := ⟨0, 0, 0⟩

def one : Vec3 := ⟨1, 1, 1⟩

/-- Componentwise addition (`impl Add for Vec3`). -/
instance : Add Vec3 := ⟨fun a b => ⟨a.x + b.x, a.y + b.y, a.z + b.z⟩⟩

/-- Componentwise subtraction (`impl Sub for Vec3`). -/
instance : Sub Vec3 := ⟨fun a b => ⟨a.x - b.x, a.y - b.y, a.z - b.z⟩⟩

/-- Componentwise negation (`impl Neg for Vec3`). -/
instance : Neg Vec3 := ⟨fun a => ⟨-a.x, -a.y, -a.z⟩⟩

/-- Componentwise product (`impl Mul<Vec3> for Vec3`). -/
instance : Mul Vec3 := ⟨fun a b => ⟨a.x * b.x, a.y * b.y, a.z * b.z⟩⟩

/-- Scalar product (`impl Mul<f64> for Vec3`). -/
instance : HMul Vec3 ℝ Vec3 := ⟨fun a s => ⟨a.x * s, a.y * s, a.z * s⟩⟩

/-- Scalar division (`impl Div<f64> for Vec3`). -/
instance : HDiv Vec3 ℝ Vec3 := ⟨fun a s => ⟨a.x / s, a.y / s, a.z / s⟩⟩

@[simp] theorem add_x (a b : Vec3) : (a + b).x = a.x + b.x := rfl
@[simp] theorem add_y (a b : Vec3) : (a + b).y = a.y + b.y := rfl
@[simp] theorem add_z (a b : Vec3) : (a + b).z = a.z + b.z := rfl
@[simp] theorem sub_x (a b : Vec3) : (a - b).x = a.x - b.x := rfl
@[simp] theorem sub_y (a b : Vec3) : (a - b).y = a.y - b.y := rfl
@[simp] theorem sub_z (a b : Vec3) : (a - b).z = a.z - b.z := rfl
@[simp] theorem neg_x (a : Vec3) : (-a).x = -a.x := rfl
@[simp] theorem neg_y (a : Vec3) : (-a).y = -a.y := rfl
@[simp] theorem neg_z (a : Vec3) : (-a).z = -a.z := rfl
@[simp] theorem mul_x (a b : Vec3) : (a * b).x = a.x * b.x := rfl
@[simp] theorem mul_y (a b : Vec3) : (a * b).y = a.y * b.y := rfl
@[simp] theorem mul_z (a b : Vec3) : (a * b).z = a.z * b.z := rfl
@[simp] theorem smul_x (a : Vec3) (s : ℝ) : (a * s).x = a.x * s := rfl
@[simp] theorem smul_y (a : Vec3) (s : ℝ) : (a * s).y = a.y * s := rfl
@[simp] theorem smul_z (a : Vec3) (s : ℝ) : (a * s).z = a.z * s := rfl
@[simp] theorem div_x (a : Vec3) (s : ℝ) : (a / s).x = a.x / s := rfl
@[simp] theorem div_y (a : Vec3) (s : ℝ) : (a / s).y = a.y / s := rfl
@[simp] theorem div_z (a : Vec3) (s : ℝ) : (a / s).z = a.z / s := rfl

def dot (a b : Vec3) : ℝ := a.x * b.x + a.y * b.y + a.z * b.z

def cross (a b : Vec3) : Vec3 :=
  ⟨a.y * b.z - a.z * b.y, a.z * b.x - a.x * b.z, a.x * b.y - a.y * b.x⟩

def length_squared (a : Vec3) : ℝ := a.x * a.x + a.y * a.y + a.z * a.z

def length (a : Vec3) : ℝ := Real.sqrt (a.x * a.x + a.y * a.y + a.z * a.z)

def normalize (a : Vec3) : Vec3 := if a.length > 0 then a / a.length else a

def reflect (v normal : Vec3) : Vec3 := v - normal * (2 * v.dot normal)

def refract (v normal : Vec3) (eta : ℝ) : Option Vec3 :=
  let cos_i := -(v.dot normal)
  let sin_t2 := eta * eta * (1 - cos_i * cos_i)
  if sin_t2 > 1 then none
  else some (v * eta + normal * (eta * cos_i - Real.sqrt (1 - sin_t2)))

def lerp (a b : Vec3) (t : ℝ) : Vec3 := a * (1 - t) + b * t

def clamp (a : Vec3) (lo hi : ℝ) : Vec3 :=
  ⟨rclamp a.x lo hi, rclamp a.y lo hi, rclamp a.z lo hi⟩

end Vec3

/-- `Ray` from `ray.rs`: the raw struct (origin, direction). -/
structure Ray where
  origin : Vec3
  direction : Vec3

namespace Ray

/-- `Ray::new`: normalizes the direction. -/
def new (origin direction : Vec3) : Ray := ⟨origin, direction.normalize⟩

/-- `Ray::at`. -/
def at' (r : Ray) (t : ℝ) : Vec3 := r.origin + r.direction * t

end Ray

/-- `HitRecord` from `ray.rs`. -/
structure HitRecord where
  point : Vec3
  normal : Vec3
  t : ℝ
  front_face : Bool

namespace HitRecord

/-- `HitRecord::new`: orients the outward normal against the ray. -/
def new (point outward_normal : Vec3) (t : ℝ) (ray : Ray) : HitRecord :=
  if ray.direction.dot outward_normal < 0 then
    ⟨point, outward_normal, t, true⟩
  else
    ⟨point, -outward_normal, t, false⟩

@[simp] theorem new_point (p n : Vec3) (t : ℝ) (r : Ray) : (new p n t r).point = p := by
  unfold new; split <;> rfl

@[simp] theorem new_t (p n : Vec3) (t : ℝ) (r : Ray) : (new p n t r).t = t := by
  unfold new; split <;> rfl

end HitRecord

/-- `Material` from `material.rs`. -/
structure Material where
  color : Vec3
  ambient : ℝ
  diffuse : ℝ
  specular : ℝ
  shininess : ℝ
  reflectivity : ℝ
  transparency : ℝ
  refractive_index : ℝ

/-- `Sphere` from `objects.rs`. -/
structure Sphere where
  center : Vec3
  radius : ℝ
  material : Material

/-- `Sphere::hit`: quadratic test, preferring the smaller root in range. -/
def Sphere.hit (s : Sphere) (ray : Ray) (t_min : ℝ) (t_max : WithTop ℝ) :
    Option HitRecord :=
  let oc := ray.origin - s.center
  let a := ray.direction.length_squared
  let half_b := oc.dot ray.direction
  let c := oc.length_squared - s.radius * s.radius
  let discriminant := half_b * half_b - a * c
  if discriminant < 0 then none
  else
    let sqrtd := Real.sqrt discriminant
    let root1 := (-half_b - sqrtd) / a
    let root2 := (-half_b + sqrtd) / a
    if root1 < t_min ∨ t_max < (root1 : WithTop ℝ) then
      if root2 < t_min ∨ t_max < (root2 : WithTop ℝ) then none
      else
        some (HitRecord.new (ray.at' root2) ((ray.at' root2 - s.center) / s.radius)
          root2 ray)
    else
      some (HitRecord.new (ray.at' root1) ((ray.at' root1 - s.center) / s.radius)
        root1 ray)

/-- `Plane` from `objects.rs` (the stored normal; `Plane::new` normalizes). -/
structure Plane where
  point : Vec3
  normal : Vec3
  material : Material

/-- `Plane::new`: normalizes the normal. -/
def Plane.new (point normal : Vec3) (material : Material) : Plane :=
  ⟨point, normal.normalize, material⟩

/-- `Plane::hit`: single linear solve, parallel rays rejected. -/
def Plane.hit (p : Plane) (ray : Ray) (t_min : ℝ) (t_max : WithTop ℝ) :
    Option HitRecord :=
  let denom := p.normal.dot ray.direction
  if |denom| < 1e-8 then none
  else
    let t := (p.point - ray.origin).dot p.normal / denom
    if t < t_min ∨ (t : WithTop ℝ) > t_max then none
    else some (HitRecord.new (ray.at' t) p.normal t ray)

/-- `Cube` from `objects.rs`. -/
structure Cube where
  center : Vec3
  size : ℝ
  material : Material

namespace Cube

/-- `min` corner of the axis-aligned box. -/
def mn (cb : Cube) : Vec3 :=
  cb.center - (⟨cb.size / 2, cb.size / 2, cb.size / 2⟩ : Vec3)

/-- `max` corner of the axis-aligned box. -/
def mx (cb : Cube) : Vec3 :=
  cb.center + (⟨cb.size / 2, cb.size / 2, cb.size / 2⟩ : Vec3)

/-- Slab parameters `t1`..`t6` (per-axis crossings via inverse direction). -/
def t1 (cb : Cube) (ray : Ray) : ℝ := ((cb.mn).x - ray.origin.x) * (1 / ray.direction.x)

def t2 (cb : Cube) (ray : Ray) : ℝ := ((cb.mx).x - ray.origin.x) * (1 / ray.direction.x)

def t3 (cb : Cube) (ray : Ray) : ℝ := ((cb.mn).y - ray.origin.y) * (1 / ray.direction.y)

def t4 (cb : Cube) (ray : Ray) : ℝ := ((cb.mx).y - ray.origin.y) * (1 / ray.direction.y)

def t5 (cb : Cube) (ray : Ray) : ℝ := ((cb.mn).z - ray.origin.z) * (1 / ray.direction.z)

def t6 (cb : Cube) (ray : Ray) : ℝ := ((cb.mx).z - ray.origin.z) * (1 / ray.direction.z)

/-- `tmin` of the slab method: the largest per-axis entry parameter. -/
def tmin_slab (cb : Cube) (ray : Ray) : ℝ :=
  max (max (min (cb.t1 ray) (cb.t2 ray)) (min (cb.t3 ray) (cb.t4 ray)))
    (min (cb.t5 ray) (cb.t6 ray))

/-- `tmax` of the slab method: the smallest per-axis exit parameter. -/
def tmax_slab (cb : Cube) (ray : Ray) : ℝ :=
  min (min (max (cb.t1 ray) (cb.t2 ray)) (max (cb.t3 ray) (cb.t4 ray)))
    (max (cb.t5 ray) (cb.t6 ray))

/-- The boundary parameter the source selects:
    `let t = if tmin < t_min { tmax } else { tmin }`. -/
def tsel (cb : Cube) (ray : Ray) (t_min : ℝ) : ℝ :=
  if cb.tmin_slab ray < t_min then cb.tmax_slab ray else cb.tmin_slab ray

/-- Face-normal selection by dominant axis of the center-to-point offset. -/
def faceNormal (cb : Cube) (point : Vec3) : Vec3 :=
  let ctp := point - cb.center
  if |ctp.x| > |ctp.y| ∧ |ctp.x| > |ctp.z| then ⟨rsignum ctp.x, 0, 0⟩
  else if |ctp.y| > |ctp.z| then ⟨0, rsignum ctp.y, 0⟩
  else ⟨0, 0, rsignum ctp.z⟩

/-- `Cube::hit`: slab method with dominant-axis face normal. -/
def hit (cb : Cube) (ray : Ray) (t_min : ℝ) (t_max : WithTop ℝ) :
    Option HitRecord :=
  if cb.tmax_slab ray < 0 ∨ cb.tmin_slab ray > cb.tmax_slab ray then none
  else
    let t := cb.tsel ray t_min
    if t < t_min ∨ (t : WithTop ℝ) > t_max then none
    else some (HitRecord.new (ray.at' t) (cb.faceNormal (ray.at' t)) t ray)

end Cube

/-- `Cylinder` from `objects.rs` (y-axis aligned, capped). -/
structure Cylinder where
  center : Vec3
  radius : ℝ
  height : ℝ
  material : Material

/-- One lateral-surface candidate of `Cylinder::hit` (body of the `for` loop). -/
def Cylinder.side (cy : Cylinder) (ray : Ray) (t_min : ℝ) (t_max : WithTop ℝ)
    (t : ℝ) : Option HitRecord :=
  if t ≥ t_min ∧ (t : WithTop ℝ) ≤ t_max then
    let point := ray.at' t
    let y := point.y - cy.center.y
    if -(cy.height / 2) ≤ y ∧ y ≤ cy.height / 2 then
      some (HitRecord.new point
        ⟨(point.x - cy.center.x) / cy.radius, 0, (point.z - cy.center.z) / cy.radius⟩
        t ray)
    else none
  else none

/-- One cap candidate of `Cylinder::hit` at plane height `ycap`
    with outward-normal y component `ny`. -/
def Cylinder.cap (cy : Cylinder) (ray : Ray) (t_min : ℝ) (t_max : WithTop ℝ)
    (ycap ny : ℝ) : Option HitRecord :=
  let t := (ycap - ray.origin.y) / ray.direction.y
  if t ≥ t_min ∧ (t : WithTop ℝ) ≤ t_max then
    let point := ray.at' t
    let dx := point.x - cy.center.x
    let dz := point.z - cy.center.z
    if dx * dx + dz * dz ≤ cy.radius * cy.radius then
      some (HitRecord.new point ⟨0, ny, 0⟩ t ray)
    else none
  else none

/-- `Cylinder::hit`: lateral roots in order, then bottom cap, then top cap. -/
def Cylinder.hit (cy : Cylinder) (ray : Ray) (t_min : ℝ) (t_max : WithTop ℝ) :
    Option HitRecord :=
  let oc := ray.origin - cy.center
  let a := ray.direction.x * ray.direction.x + ray.direction.z * ray.direction.z
  let b := 2 * (oc.x * ray.direction.x + oc.z * ray.direction.z)
  let c := oc.x * oc.x + oc.z * oc.z - cy.radius * cy.radius
  let discriminant := b * b - 4 * a * c
  if discriminant < 0 then none
  else
    let sqrt_discriminant := Real.sqrt discriminant
    let t1 := (-b - sqrt_discriminant) / (2 * a)
    let t2 := (-b + sqrt_discriminant) / (2 * a)
    (cy.side ray t_min t_max t1).or
      ((cy.side ray t_min t_max t2).or
        (if |ray.direction.y| > 1e-8 then
          (cy.cap ray t_min t_max (cy.center.y - cy.height / 2) (-1)).or
            (cy.cap ray t_min t_max (cy.center.y + cy.height / 2) 1)
        else none))

/-- The closed primitive variant set (design note §9 of the spec):
    trait objects `Box<dyn Object>` become a tagged union. -/
inductive Prim where
  | sphere (s : Sphere)
  | plane (p : Plane)
  | cube (cb : Cube)
  | cylinder (cy : Cylinder)

namespace Prim

/-- Dispatch of `Object::hit`. -/
def hit : Prim → Ray → ℝ → WithTop ℝ → Option HitRecord
  | sphere s => s.hit
  | plane p => p.hit
  | cube cb => cb.hit
  | cylinder cy => cy.hit

/-- Dispatch of `Object::material`. -/
def material : Prim → Material
  | sphere s => s.material
  | plane p => p.material
  | cube cb => cb.material
  | cylinder cy => cy.material

/-- Whether the primitive is the cylinder variant. -/
def isCyl : Prim → Bool
  | cylinder _ => true
  | _ => false

end Prim

/-- `Light` from `light.rs`. -/
structure Light where
  position : Vec3
  color : Vec3
  intensity : ℝ

namespace Light

/-- `Light::direction_from`. -/
def direction_from (l : Light) (point : Vec3) : Vec3 := (l.position - point).normalize

/-- `Light::distance_from`. -/
def distance_from (l : Light) (point : Vec3) : ℝ := (l.position - point).length

/-- `Light::attenuation`. -/
def attenuation (_ : Light) (distance : ℝ) : ℝ :=
  1 / (1 + 0.1 * distance + 0.01 * distance * distance)

end Light

/-- `Camera` from `camera.rs`: stored plus derived fields. -/
structure Camera where
  position : Vec3
  look_at : Vec3
  up : Vec3
  fov : ℝ
  aspect_ratio : ℝ
  u : Vec3
  v : Vec3
  w : Vec3
  horizontal : Vec3
  vertical : Vec3
  lower_left_corner : Vec3

namespace Camera

/-- `Camera::new`: derives the orthonormal basis and viewport extents. -/
def new (position look_at up : Vec3) (fov aspect_ratio : ℝ) : Camera :=
  let theta := fov * (Real.pi / 180)
  let half_height := Real.tan (theta / 2)
  let half_width := aspect_ratio * half_height
  let w := (position - look_at).normalize
  let u := (up.cross w).normalize
  let v := w.cross u
  let horizontal := u * half_width * (2:ℝ)
  let vertical := v * half_height * (2:ℝ)
  let lower_left_corner := position - horizontal / (2:ℝ) - vertical / (2:ℝ) - w
  ⟨position, look_at, up, fov, aspect_ratio, u, v, w, horizontal, vertical,
    lower_left_corner⟩

/-- `Camera::get_ray`. -/
def get_ray (c : Camera) (s t : ℝ) : Ray :=
  let target := c.lower_left_corner + c.horizontal * s + c.vertical * t
  Ray.new c.position (target - c.position)

end Camera

/-- `Image` from `image.rs`: a width×height pixel grid stored row-major. -/
structure Image where
  width : ℕ
  height : ℕ
  pixels : List Vec3

namespace Image

/-- `Image::new`: all pixels black. -/
def new (width height : ℕ) : Image :=
  ⟨width, height, List.replicate (width * height) Vec3.zero⟩

/-- `Image::set_pixel`: silently ignores out-of-bounds coordinates. -/
def set_pixel (img : Image) (x y : ℕ) (color : Vec3) : Image :=
  if x < img.width ∧ y < img.height then
    { img with pixels := img.pixels.set (y * img.width + x) color }
  else img

/-- `Image::get_pixel` (out-of-bounds reads give black). -/
def get_pixel (img : Image) (x y : ℕ) : Vec3 :=
  if x < img.width ∧ y < img.height then
    img.pixels.getD (y * img.width + x) Vec3.zero
  else Vec3.zero

end Image

/-- `Scene` from `scene.rs`. -/
structure Scene where
  objects : List Prim
  lights : List Light
  camera : Option Camera
  background_color : Vec3

namespace Scene

/-- One step of the `Scene::hit` linear scan: query the object against the
    current shrinking upper bound and record a hit together with its owner. -/
def hitStep (ray : Ray) (t_min : ℝ)
    (acc : Option (HitRecord × Prim) × WithTop ℝ) (o : Prim) :
    Option (HitRecord × Prim) × WithTop ℝ :=
  match o.hit ray t_min acc.2 with
  | some hit_record => (some (hit_record, o), (hit_record.t : WithTop ℝ))
  | none => acc

/-- `Scene::hit`: linear scan with shrinking `t_max`, nearest hit wins. -/
def hit (s : Scene) (ray : Ray) (t_min : ℝ) (t_max : WithTop ℝ) :
    Option (HitRecord × Prim) :=
  (s.objects.foldl (hitStep ray t_min) (none, t_max)).1

/-- The per-light accumulation step in `Scene::ray_color` (shadow test,
    diffuse, specular, attenuation). -/
def lightStep (s : Scene) (ray : Ray) (hit_record : HitRecord)
    (material : Material) (color : Vec3) (light : Light) : Vec3 :=
  let light_dir := light.direction_from hit_record.point
  let light_distance := light.distance_from hit_record.point
  let shadow_ray := Ray.new (hit_record.point + hit_record.normal * (0.001:ℝ)) light_dir
  let in_shadow := (s.hit shadow_ray 0.001 (light_distance : WithTop ℝ)).isSome
  if in_shadow then color
  else
    let diffuse_strength := max (hit_record.normal.dot light_dir) 0
    let diffuse := material.color * light.color * material.diffuse *
      diffuse_strength * light.intensity
    let view_dir := (-ray.direction).normalize
    let reflect_dir := (-light_dir).reflect hit_record.normal
    let spec_strength := Real.rpow (max (view_dir.dot reflect_dir) 0) material.shininess
    let specular := light.color * material.specular * spec_strength * light.intensity
    let attenuation := light.attenuation light_distance
    color + (diffuse + specular) * attenuation

/-- `Scene::ray_color`: the recursive Whitted shading evaluator.
    `depth` is the `i32` bounce budget; `f64::INFINITY` becomes `⊤`. -/
def ray_color (s : Scene) (ray : Ray) (depth : ℤ) (enable_reflection : Bool) : Vec3 :=
  if depth ≤ 0 then Vec3.zero
  else
    match s.hit ray 0.001 ⊤ with
    | some (hit_record, object) =>
      let material := object.material
      let color0 := Vec3.zero + material.color * material.ambient
      let colorL := s.lights.foldl (s.lightStep ray hit_record material) color0
      let colorR :=
        if enable_reflection ∧ material.reflectivity > 0 then
          let reflected_dir := ray.direction.reflect hit_record.normal
          let reflected_ray :=
            Ray.new (hit_record.point + hit_record.normal * (0.001:ℝ)) reflected_dir
          let reflected_color := s.ray_color reflected_ray (depth - 1) enable_reflection
          colorL * (1 - material.reflectivity) + reflected_color * material.reflectivity
        else colorL
      let colorT :=
        if material.transparency > 0 then
          let refraction_ratio :=
            if hit_record.front_face then 1 / material.refractive_index
            else material.refractive_index
          match ray.direction.refract hit_record.normal refraction_ratio with
          | some refracted_dir =>
            let refracted_ray :=
              Ray.new (hit_record.point - hit_record.normal * (0.001:ℝ)) refracted_dir
            let refracted_color := s.ray_color refracted_ray (depth - 1) enable_reflection
            colorR * (1 - material.transparency) + refracted_color * material.transparency
          | none => colorR
        else colorR
      colorT.clamp 0 1
    | none => s.background_color
termination_by depth.toNat
decreasing_by all_goals (simp_wf; omega)

/-- The pure per-pixel function of `Scene::render`: image-plane coordinates
    `u = i/(width-1)`, `v = (height-1-j)/(height-1)` (truncated `u32`
    subtraction before the `f64` cast, exactly as in the source), one camera
    ray, bounce budget 5. -/
def pixelColor (s : Scene) (camera : Camera) (width height : ℕ)
    (i j : ℕ) (enable_reflection : Bool) : Vec3 :=
  let u := (i : ℝ) / ((width - 1 : ℕ) : ℝ)
  let v := ((height - 1 - j : ℕ) : ℝ) / ((height - 1 : ℕ) : ℝ)
  s.ray_color (camera.get_ray u v) 5 enable_reflection

/-- `Scene::render`: evaluates every pixel (rayon's ordered parallel collect
    modelled as the order-preserving map it guarantees), then writes the flat
    result vector back by linear index. `None` models the `expect` panic when
    no camera is set. -/
def render (s : Scene) (image : Image) (enable_reflection : Bool) : Option Image :=
  match s.camera with
  | none => none
  | some camera =>
    let width := image.width
    let height := image.height
    let pixels : List Vec3 :=
      (List.range height).map
        (fun j => (List.range width).map
          (fun i => s.pixelColor camera width height i j enable_reflection))
        |>.flatten
    some (pixels.enum.foldl
      (fun img ip => img.set_pixel (ip.1 % width) (ip.1 / width) ip.2) image)

end Scene

/-! ## Range soundness: every returned hit parameter lies in `[t_min, t_max]` -/

theorem sphere_hit_t_range {s : Sphere} {ray : Ray} {t_min : ℝ} {t_max : WithTop ℝ}
    {rec : HitRecord} (h : s.hit ray t_min t_max = some rec) :
    t_min ≤ rec.t ∧ (rec.t : WithTop ℝ) ≤ t_max := by
  simp only [Sphere.hit] at h
  split_ifs at h with h1 h2 h3
  · push_neg at h3
    rw [Option.some.injEq] at h
    subst h
    simpa only [HitRecord.new_t] using h3
  · push_neg at h2
    rw [Option.some.injEq] at h
    subst h
    simpa only [HitRecord.new_t] using h2

theorem plane_hit_t_range {p : Plane} {ray : Ray} {t_min : ℝ} {t_max : WithTop ℝ}
    {rec : HitRecord} (h : p.hit ray t_min t_max = some rec) :
    t_min ≤ rec.t ∧ (rec.t : WithTop ℝ) ≤ t_max := by
  simp only [Plane.hit] at h
  split_ifs at h with h1 h2
  push_neg at h2
  rw [Option.some.injEq] at h
  subst h
  simpa only [HitRecord.new_t] using h2

theorem cube_hit_t_range {cb : Cube} {ray : Ray} {t_min : ℝ} {t_max : WithTop ℝ}
    {rec : HitRecord} (h : cb.hit ray t_min t_max = some rec) :
    t_min ≤ rec.t ∧ (rec.t : WithTop ℝ) ≤ t_max := by
  simp only [Cube.hit] at h
  split_ifs at h with h1 h2
  push_neg at h2
  rw [Option.some.injEq] at h
  subst h
  simpa only [HitRecord.new_t] using h2

theorem Cylinder.side_t_range {cy : Cylinder} {ray : Ray} {t_min : ℝ}
    {t_max : WithTop ℝ} {t : ℝ} {rec : HitRecord}
    (h : cy.side ray t_min t_max t = some rec) :
    t_min ≤ rec.t ∧ (rec.t : WithTop ℝ) ≤ t_max := by
  simp only [Cylinder.side] at h
  split_ifs at h with h1 h2
  rw [Option.some.injEq] at h
  subst h
  simpa only [HitRecord.new_t] using ⟨h1.1, h1.2⟩

theorem Cylinder.cap_t_range {cy : Cylinder} {ray : Ray} {t_min : ℝ}
    {t_max : WithTop ℝ} {ycap ny : ℝ} {rec : HitRecord}
    (h : cy.cap ray t_min t_max ycap ny = some rec) :
    t_min ≤ rec.t ∧ (rec.t : WithTop ℝ) ≤ t_max := by
  simp only [Cylinder.cap] at h
  split_ifs at h with h1 h2
  rw [Option.some.injEq] at h
  subst h
  simpa only [HitRecord.new_t] using ⟨h1.1, h1.2⟩

theorem cylinder_hit_t_range {cy : Cylinder} {ray : Ray} {t_min : ℝ}
    {t_max : WithTop ℝ} {rec : HitRecord}
    (h : cy.hit ray t_min t_max = some rec) :
    t_min ≤ rec.t ∧ (rec.t : WithTop ℝ) ≤ t_max := by
  simp only [Cylinder.hit] at h
  split_ifs at h with h1 h2
  · rcases Option.or_eq_some.mp h with h' | ⟨-, h'⟩
    · exact Cylinder.side_t_range h'
    rcases Option.or_eq_some.mp h' with h'' | ⟨-, h''⟩
    · exact Cylinder.side_t_range h''
    rcases Option.or_eq_some.mp h'' with h3 | ⟨-, h3⟩
    · exact Cylinder.cap_t_range h3
    · exact Cylinder.cap_t_range h3
  · rcases Option.or_eq_some.mp h with h' | ⟨-, h'⟩
    · exact Cylinder.side_t_range h'
    rcases Option.or_eq_some.mp h' with h'' | ⟨-, h''⟩
    · exact Cylinder.side_t_range h''
    · exact Option.noConfusion h''

theorem prim_hit_t_range {o : Prim} {ray : Ray} {t_min : ℝ} {t_max : WithTop ℝ}
    {rec : HitRecord} (h : o.hit ray t_min t_max = some rec) :
    t_min ≤ rec.t ∧ (rec.t : WithTop ℝ) ≤ t_max := by
  cases o with
  | sphere s => exact sphere_hit_t_range h
  | plane p => exact plane_hit_t_range h
  | cube cb => exact cube_hit_t_range h
  | cylinder cy => exact cylinder_hit_t_range h

/-! ## On-surface -/

theorem sphere_root_solves {a hb c s t : ℝ} (ha : a ≠ 0) (hs : s * s = hb * hb - a * c)
    (ht : t = (-hb - s) / a ∨ t = (-hb + s) / a) : a * (t * t) + 2 * hb * t + c = 0 := by
  rcases ht with rfl | rfl <;> field_simp <;> linear_combination a ^ 2 * hs

theorem quad_root_solves {a b c s t : ℝ} (ha : a ≠ 0) (hs : s * s = b * b - 4 * a * c)
    (ht : t = (-b - s) / (2 * a) ∨ t = (-b + s) / (2 * a)) :
    a * (t * t) + b * t + c = 0 := by
  rcases ht with rfl | rfl <;> field_simp <;> linear_combination 2 * a ^ 2 * hs

/-- Points of the sphere surface. -/
def Sphere.onSurface (s : Sphere) (p : Vec3) : Prop :=
  (p - s.center).length_squared = s.radius * s.radius

theorem Sphere.surface_of_root {s : Sphere} {ray : Ray} {t : ℝ}
    (hsol : ray.direction.length_squared * (t * t) +
      2 * ((ray.origin - s.center).dot ray.direction) * t +
      ((ray.origin - s.center).length_squared - s.radius * s.radius) = 0) :
    s.onSurface (ray.at' t) := by
  simp only [Sphere.onSurface, Vec3.length_squared, Vec3.dot, Ray.at', Vec3.add_x,
    Vec3.add_y, Vec3.add_z, Vec3.sub_x, Vec3.sub_y, Vec3.sub_z, Vec3.smul_x,
    Vec3.smul_y, Vec3.smul_z] at hsol ⊢
  linear_combination hsol

theorem sphere_hit_on_surface {s : Sphere} {ray : Ray} {t_min : ℝ} {t_max : WithTop ℝ}
    {rec : HitRecord} (ha : ray.direction.length_squared ≠ 0)
    (h : s.hit ray t_min t_max = some rec) :
    rec.point = ray.at' rec.t ∧ s.onSurface rec.point := by
  simp only [Sphere.hit] at h
  split_ifs at h with h1 h2 h3
  · push_neg at h1
    rw [Option.some.injEq] at h
    subst h
    simp only [HitRecord.new_point, HitRecord.new_t]
    exact ⟨trivial, Sphere.surface_of_root
      (sphere_root_solves ha (Real.mul_self_sqrt h1) (Or.inr rfl))⟩
  · push_neg at h1
    rw [Option.some.injEq] at h
    subst h
    simp only [HitRecord.new_point, HitRecord.new_t]
    exact ⟨trivial, Sphere.surface_of_root
      (sphere_root_solves ha (Real.mul_self_sqrt h1) (Or.inl rfl))⟩

/-- Points of the plane. -/
def Plane.onSurface (pl : Plane) (p : Vec3) : Prop :=
  (p - pl.point).dot pl.normal = 0

theorem plane_hit_on_surface {pl : Plane} {ray : Ray} {t_min : ℝ} {t_max : WithTop ℝ}
    {rec : HitRecord} (h : pl.hit ray t_min t_max = some rec) :
    rec.point = ray.at' rec.t ∧ pl.onSurface rec.point := by
  simp only [Plane.hit] at h
  split_ifs at h with h1 h2
  rw [Option.some.injEq] at h
  subst h
  simp only [HitRecord.new_point, HitRecord.new_t]
  refine ⟨trivial, ?_⟩
  have hden : pl.normal.dot ray.direction ≠ 0 := by
    intro h0
    rw [h0] at h1
    simp at h1
    exact absurd h1 (by norm_num)
  have ht : (pl.point - ray.origin).dot pl.normal / (pl.normal.dot ray.direction) *
      (pl.normal.dot ray.direction) = (pl.point - ray.origin).dot pl.normal :=
    div_mul_cancel₀ _ hden
  simp only [Plane.onSurface, Vec3.dot, Ray.at', Vec3.add_x, Vec3.add_y, Vec3.add_z,
    Vec3.sub_x, Vec3.sub_y, Vec3.sub_z, Vec3.smul_x, Vec3.smul_y, Vec3.smul_z] at ht ⊢
  linear_combination ht

/-- A coordinate driven to a slab boundary: `o + d·((v-o)·(1/d)) = v`. -/
theorem coord_of_slab {o d v : ℝ} (hd : d ≠ 0) : o + d * ((v - o) * (1 / d)) = v := by
  field_simp

/-- Between the two slab crossings the coordinate lies between the two planes
    (stated as a sign condition on the product of the offsets). -/
theorem slab_between (o d mnv mxv t : ℝ) (hd : d ≠ 0)
    (hlo : min ((mnv - o) * (1 / d)) ((mxv - o) * (1 / d)) ≤ t)
    (hhi : t ≤ max ((mnv - o) * (1 / d)) ((mxv - o) * (1 / d))) :
    (o + d * t - mnv) * (o + d * t - mxv) ≤ 0 := by
  have e1 : o + d * t - mnv = d * (t - (mnv - o) * (1 / d)) := by field_simp; ring
  have e2 : o + d * t - mxv = d * (t - (mxv - o) * (1 / d)) := by field_simp; ring
  rw [e1, e2]
  have key : (t - (mnv - o) * (1 / d)) * (t - (mxv - o) * (1 / d)) ≤ 0 := by
    rcases le_total ((mnv - o) * (1 / d)) ((mxv - o) * (1 / d)) with hc | hc
    · rw [min_eq_left hc] at hlo
      rw [max_eq_right hc] at hhi
      nlinarith
    · rw [min_eq_right hc] at hlo
      rw [max_eq_left hc] at hhi
      nlinarith
  nlinarith [sq_nonneg d, key, sq_nonneg (d * ((t - (mnv - o) * (1 / d)) + (t - (mxv - o) * (1 / d))))]

/-- Points on the cube's boundary: inside every slab (offset product ≤ 0
    per axis) and exactly on at least one face plane. -/
def Cube.onSurface (cb : Cube) (p : Vec3) : Prop :=
  ((p.x - cb.mn.x) * (p.x - cb.mx.x) ≤ 0 ∧
   (p.y - cb.mn.y) * (p.y - cb.mx.y) ≤ 0 ∧
   (p.z - cb.mn.z) * (p.z - cb.mx.z) ≤ 0) ∧
  (p.x = cb.mn.x ∨ p.x = cb.mx.x ∨ p.y = cb.mn.y ∨ p.y = cb.mx.y ∨
   p.z = cb.mn.z ∨ p.z = cb.mx.z)

theorem Cube.tsel_cases (cb : Cube) (ray : Ray) (t_min : ℝ) :
    cb.tsel ray t_min = cb.tmin_slab ray ∨ cb.tsel ray t_min = cb.tmax_slab ray := by
  unfold Cube.tsel
  split_ifs <;> simp

theorem cube_hit_on_surface {cb : Cube} {ray : Ray} {t_min : ℝ} {t_max : WithTop ℝ}
    {rec : HitRecord} (hdx : ray.direction.x ≠ 0) (hdy : ray.direction.y ≠ 0)
    (hdz : ray.direction.z ≠ 0) (h : cb.hit ray t_min t_max = some rec) :
    rec.point = ray.at' rec.t ∧ cb.onSurface rec.point := by
  simp only [Cube.hit] at h
  split_ifs at h with h1 h2
  push_neg at h1
  rw [Option.some.injEq] at h
  subst h
  simp only [HitRecord.new_point, HitRecord.new_t]
  refine ⟨trivial, ?_, ?_⟩
  · -- inside every slab
    have hmono := h1.2
    have hsel := cb.tsel_cases ray t_min
    have hlo : cb.tmin_slab ray ≤ cb.tsel ray t_min ∨
        cb.tsel ray t_min = cb.tmax_slab ray := by
      rcases hsel with h' | h'
      · exact Or.inl (le_of_eq h'.symm)
      · exact Or.inr h'
    have hge : ∀ m, m ≤ cb.tmin_slab ray → m ≤ cb.tsel ray t_min := by
      intro m hm
      rcases hsel with h' | h' <;> rw [h']
      · exact hm
      · exact le_trans hm hmono
    have hle : ∀ m, cb.tmax_slab ray ≤ m → cb.tsel ray t_min ≤ m := by
      intro m hm
      rcases hsel with h' | h' <;> rw [h']
      · exact le_trans hmono hm
      · exact hm
    have hx := slab_between ray.origin.x ray.direction.x cb.mn.x cb.mx.x
      (cb.tsel ray t_min) hdx
      (hge _ (le_trans (le_max_left _ _) (le_max_left _ _)))
      (hle _ (le_trans (min_le_left _ _) (min_le_left _ _)))
    have hy := slab_between ray.origin.y ray.direction.y cb.mn.y cb.mx.y
      (cb.tsel ray t_min) hdy
      (hge _ (le_trans (le_max_right _ _) (le_max_left _ _)))
      (hle _ (le_trans (min_le_left _ _) (min_le_right _ _)))
    have hz := slab_between ray.origin.z ray.direction.z cb.mn.z cb.mx.z
      (cb.tsel ray t_min) hdz
      (hge _ (le_max_right _ _))
      (hle _ (min_le_right _ _))
    exact ⟨hx, hy, hz⟩
  · -- on a face plane
    have hsel := cb.tsel_cases ray t_min
    have hmem : cb.tsel ray t_min = cb.t1 ray ∨ cb.tsel ray t_min = cb.t2 ray ∨
        cb.tsel ray t_min = cb.t3 ray ∨ cb.tsel ray t_min = cb.t4 ray ∨
        cb.tsel ray t_min = cb.t5 ray ∨ cb.tsel ray t_min = cb.t6 ray := by
      rcases hsel with h' | h' <;> rw [h']
      · unfold Cube.tmin_slab
        rcases max_choice (max (min (cb.t1 ray) (cb.t2 ray)) (min (cb.t3 ray) (cb.t4 ray)))
            (min (cb.t5 ray) (cb.t6 ray)) with h'' | h'' <;> rw [h'']
        · rcases max_choice (min (cb.t1 ray) (cb.t2 ray)) (min (cb.t3 ray) (cb.t4 ray)) with
            h3 | h3 <;> rw [h3]
          · rcases min_choice (cb.t1 ray) (cb.t2 ray) with h4 | h4 <;> rw [h4] <;> tauto
          · rcases min_choice (cb.t3 ray) (cb.t4 ray) with h4 | h4 <;> rw [h4] <;> tauto
        · rcases min_choice (cb.t5 ray) (cb.t6 ray) with h4 | h4 <;> rw [h4] <;> tauto
      · unfold Cube.tmax_slab
        rcases min_choice (min (max (cb.t1 ray) (cb.t2 ray)) (max (cb.t3 ray) (cb.t4 ray)))
            (max (cb.t5 ray) (cb.t6 ray)) with h'' | h'' <;> rw [h'']
        · rcases min_choice (max (cb.t1 ray) (cb.t2 ray)) (max (cb.t3 ray) (cb.t4 ray)) with
            h3 | h3 <;> rw [h3]
          · rcases max_choice (cb.t1 ray) (cb.t2 ray) with h4 | h4 <;> rw [h4] <;> tauto
          · rcases max_choice (cb.t3 ray) (cb.t4 ray) with h4 | h4 <;> rw [h4] <;> tauto
        · rcases max_choice (cb.t5 ray) (cb.t6 ray) with h4 | h4 <;> rw [h4] <;> tauto
    rcases hmem with h' | h' | h' | h' | h' | h' <;> rw [h']
    · left
      unfold Cube.t1
      simp only [Ray.at', Vec3.add_x, Vec3.smul_x]
      exact coord_of_slab hdx
    · right; left
      unfold Cube.t2
      simp only [Ray.at', Vec3.add_x, Vec3.smul_x]
      exact coord_of_slab hdx
    · right; right; left
      unfold Cube.t3
      simp only [Ray.at', Vec3.add_y, Vec3.smul_y]
      exact coord_of_slab hdy
    · right; right; right; left
      unfold Cube.t4
      simp only [Ray.at', Vec3.add_y, Vec3.smul_y]
      exact coord_of_slab hdy
    · right; right; right; right; left
      unfold Cube.t5
      simp only [Ray.at', Vec3.add_z, Vec3.smul_z]
      exact coord_of_slab hdz
    · right; right; right; right; right
      unfold Cube.t6
      simp only [Ray.at', Vec3.add_z, Vec3.smul_z]
      exact coord_of_slab hdz

/-- Points on the capped cylinder's surface: lateral wall (with the height
    band) or one of the two disk caps. -/
def Cylinder.onSurface (cy : Cylinder) (p : Vec3) : Prop :=
  ((p.x - cy.center.x) * (p.x - cy.center.x) +
      (p.z - cy.center.z) * (p.z - cy.center.z) = cy.radius * cy.radius ∧
    -(cy.height / 2) ≤ p.y - cy.center.y ∧ p.y - cy.center.y ≤ cy.height / 2) ∨
  ((p.y = cy.center.y - cy.height / 2 ∨ p.y = cy.center.y + cy.height / 2) ∧
    (p.x - cy.center.x) * (p.x - cy.center.x) +
      (p.z - cy.center.z) * (p.z - cy.center.z) ≤ cy.radius * cy.radius)

theorem Cylinder.lateral_of_root {cy : Cylinder} {ray : Ray} {t : ℝ}
    (hsol : (ray.direction.x * ray.direction.x + ray.direction.z * ray.direction.z) *
        (t * t) +
      (2 * ((ray.origin - cy.center).x * ray.direction.x +
        (ray.origin - cy.center).z * ray.direction.z)) * t +
      ((ray.origin - cy.center).x * (ray.origin - cy.center).x +
        (ray.origin - cy.center).z * (ray.origin - cy.center).z -
        cy.radius * cy.radius) = 0) :
    ((ray.at' t).x - cy.center.x) * ((ray.at' t).x - cy.center.x) +
      ((ray.at' t).z - cy.center.z) * ((ray.at' t).z - cy.center.z) =
      cy.radius * cy.radius := by
  simp only [Ray.at', Vec3.add_x, Vec3.add_z, Vec3.sub_x, Vec3.sub_z, Vec3.smul_x,
    Vec3.smul_z] at hsol ⊢
  linear_combination hsol

theorem Cylinder.side_elim {cy : Cylinder} {ray : Ray} {t_min : ℝ} {t_max : WithTop ℝ}
    {t : ℝ} {rec : HitRecord} (h : cy.side ray t_min t_max t = some rec) :
    rec.point = ray.at' t ∧ rec.t = t ∧
      -(cy.height / 2) ≤ (ray.at' t).y - cy.center.y ∧
      (ray.at' t).y - cy.center.y ≤ cy.height / 2 := by
  simp only [Cylinder.side] at h
  split_ifs at h with h1 h2
  rw [Option.some.injEq] at h
  subst h
  exact ⟨by simp, by simp, h2.1, h2.2⟩

theorem Cylinder.cap_elim {cy : Cylinder} {ray : Ray} {t_min : ℝ} {t_max : WithTop ℝ}
    {ycap ny : ℝ} {rec : HitRecord} (hdy : ray.direction.y ≠ 0)
    (h : cy.cap ray t_min t_max ycap ny = some rec) :
    rec.point = ray.at' rec.t ∧ rec.point.y = ycap ∧
      (rec.point.x - cy.center.x) * (rec.point.x - cy.center.x) +
        (rec.point.z - cy.center.z) * (rec.point.z - cy.center.z) ≤
        cy.radius * cy.radius := by
  simp only [Cylinder.cap] at h
  split_ifs at h with h1 h2
  rw [Option.some.injEq] at h
  subst h
  simp only [HitRecord.new_point, HitRecord.new_t]
  refine ⟨trivial, ?_, h2⟩
  simp only [Ray.at', Vec3.add_y, Vec3.smul_y]
  field_simp

theorem cylinder_hit_on_surface {cy : Cylinder} {ray : Ray} {t_min : ℝ}
    {t_max : WithTop ℝ} {rec : HitRecord}
    (ha : ray.direction.x * ray.direction.x + ray.direction.z * ray.direction.z ≠ 0)
    (h : cy.hit ray t_min t_max = some rec) :
    rec.point = ray.at' rec.t ∧ cy.onSurface rec.point := by
  simp only [Cylinder.hit] at h
  split_ifs at h with h1 h2
  · push_neg at h1
    rcases Option.or_eq_some.mp h with h' | ⟨-, h'⟩
    · obtain ⟨hp, ht, hb1, hb2⟩ := Cylinder.side_elim h'
      rw [hp, ht]
      exact ⟨rfl, Or.inl ⟨Cylinder.lateral_of_root
        (quad_root_solves ha (Real.mul_self_sqrt h1) (Or.inl rfl)), hb1, hb2⟩⟩
    rcases Option.or_eq_some.mp h' with h'' | ⟨-, h''⟩
    · obtain ⟨hp, ht, hb1, hb2⟩ := Cylinder.side_elim h''
      rw [hp, ht]
      exact ⟨rfl, Or.inl ⟨Cylinder.lateral_of_root
        (quad_root_solves ha (Real.mul_self_sqrt h1) (Or.inr rfl)), hb1, hb2⟩⟩
    have hdy : ray.direction.y ≠ 0 := by
      intro h0
      rw [h0] at h2
      simp at h2
      exact absurd h2 (by norm_num)
    rcases Option.or_eq_some.mp h'' with h3 | ⟨-, h3⟩
    · obtain ⟨hp, hy, hr⟩ := Cylinder.cap_elim hdy h3
      exact ⟨hp, Or.inr ⟨Or.inl hy, hr⟩⟩
    · obtain ⟨hp, hy, hr⟩ := Cylinder.cap_elim hdy h3
      exact ⟨hp, Or.inr ⟨Or.inr hy, hr⟩⟩
  · push_neg at h1
    rcases Option.or_eq_some.mp h with h' | ⟨-, h'⟩
    · obtain ⟨hp, ht, hb1, hb2⟩ := Cylinder.side_elim h'
      rw [hp, ht]
      exact ⟨rfl, Or.inl ⟨Cylinder.lateral_of_root
        (quad_root_solves ha (Real.mul_self_sqrt h1) (Or.inl rfl)), hb1, hb2⟩⟩
    rcases Option.or_eq_some.mp h' with h'' | ⟨-, h''⟩
    · obtain ⟨hp, ht, hb1, hb2⟩ := Cylinder.side_elim h''
      rw [hp, ht]
      exact ⟨rfl, Or.inl ⟨Cylinder.lateral_of_root
        (quad_root_solves ha (Real.mul_self_sqrt h1) (Or.inr rfl)), hb1, hb2⟩⟩
    · exact Option.noConfusion h''

/-! ## Claim C1 -/

/-- The default material (`Material::default`), used for concrete instances. -/
def mat0 : Material := ⟨⟨0.5, 0.5, 0.5⟩, 0.1, 0.7, 0.2, 200, 0, 0, 1⟩

/-- C1 counterexample: the lower bound is inclusive, not exclusive. The plane
    `y = 0` queried with `t_min = 5` returns the hit at `t = 5 = t_min`
    exactly, contradicting "strictly above t_min". -/
theorem claim1_counterexample :
    Plane.hit ⟨⟨0, 0, 0⟩, ⟨0, 1, 0⟩, mat0⟩ ⟨⟨0, 5, 0⟩, ⟨0, -1, 0⟩⟩ 5
      ((10 : ℝ) : WithTop ℝ) = some ⟨⟨0, 0, 0⟩, ⟨0, 1, 0⟩, 5, true⟩ := by
  unfold Plane.hit
  simp only [Vec3.dot, Vec3.sub_x, Vec3.sub_y, Vec3.sub_z, WithTop.coe_lt_coe]
  norm_num [HitRecord.new, Ray.at', Vec3.dot]
  ext <;> norm_num

/-- C1 (amended): every primitive's `hit` returns a record only when its
    parameter `t` lies in the closed interval `[t_min, t_max]` (the source
    bounds are inclusive at both ends), and — for rays that are nondegenerate
    for the respective solver — the hit point is `ray.at(t)` and lies on the
    primitive's surface; consequently, when no surface intersection parameter
    lies in `[t_min, t_max]`, no result is returned. -/
theorem claim1_hit_interval :
    ∀ (ray : Ray) (t_min : ℝ) (t_max : WithTop ℝ),
      (∀ (s : Sphere) (rec : HitRecord), s.hit ray t_min t_max = some rec →
        (t_min ≤ rec.t ∧ (rec.t : WithTop ℝ) ≤ t_max) ∧
        (ray.direction.length_squared ≠ 0 →
          rec.point = ray.at' rec.t ∧ s.onSurface rec.point)) ∧
      (∀ (p : Plane) (rec : HitRecord), p.hit ray t_min t_max = some rec →
        (t_min ≤ rec.t ∧ (rec.t : WithTop ℝ) ≤ t_max) ∧
        (rec.point = ray.at' rec.t ∧ p.onSurface rec.point)) ∧
      (∀ (cb : Cube) (rec : HitRecord), cb.hit ray t_min t_max = some rec →
        (t_min ≤ rec.t ∧ (rec.t : WithTop ℝ) ≤ t_max) ∧
        (ray.direction.x ≠ 0 → ray.direction.y ≠ 0 → ray.direction.z ≠ 0 →
          rec.point = ray.at' rec.t ∧ cb.onSurface rec.point)) ∧
      (∀ (cy : Cylinder) (rec : HitRecord), cy.hit ray t_min t_max = some rec →
        (t_min ≤ rec.t ∧ (rec.t : WithTop ℝ) ≤ t_max) ∧
        (ray.direction.x * ray.direction.x + ray.direction.z * ray.direction.z ≠ 0 →
          rec.point = ray.at' rec.t ∧ cy.onSurface rec.point)) ∧
      (∀ s : Sphere, ray.direction.length_squared ≠ 0 →
        (∀ t : ℝ, t_min ≤ t → (t : WithTop ℝ) ≤ t_max → ¬s.onSurface (ray.at' t)) →
        s.hit ray t_min t_max = none) ∧
      (∀ p : Plane,
        (∀ t : ℝ, t_min ≤ t → (t : WithTop ℝ) ≤ t_max → ¬p.onSurface (ray.at' t)) →
        p.hit ray t_min t_max = none) ∧
      (∀ cb : Cube, ray.direction.x ≠ 0 → ray.direction.y ≠ 0 → ray.direction.z ≠ 0 →
        (∀ t : ℝ, t_min ≤ t → (t : WithTop ℝ) ≤ t_max → ¬cb.onSurface (ray.at' t)) →
        cb.hit ray t_min t_max = none) ∧
      (∀ cy : Cylinder,
        ray.direction.x * ray.direction.x + ray.direction.z * ray.direction.z ≠ 0 →
        (∀ t : ℝ, t_min ≤ t → (t : WithTop ℝ) ≤ t_max → ¬cy.onSurface (ray.at' t)) →
        cy.hit ray t_min t_max = none) := by
  intro ray t_min t_max
  refine ⟨?_, ?_, ?_, ?_, ?_, ?_, ?_, ?_⟩
  · exact fun s rec h => ⟨sphere_hit_t_range h, fun ha => sphere_hit_on_surface ha h⟩
  · exact fun p rec h => ⟨plane_hit_t_range h, plane_hit_on_surface h⟩
  · exact fun cb rec h =>
      ⟨cube_hit_t_range h, fun hx hy hz => cube_hit_on_surface hx hy hz h⟩
  · exact fun cy rec h => ⟨cylinder_hit_t_range h, fun ha => cylinder_hit_on_surface ha h⟩
  · intro s ha hno
    cases heq : s.hit ray t_min t_max with
    | none => rfl
    | some rec =>
      obtain ⟨h1, h2⟩ := sphere_hit_t_range heq
      obtain ⟨hp, hs⟩ := sphere_hit_on_surface ha heq
      exact absurd (hp ▸ hs) (hno rec.t h1 h2)
  · intro p hno
    cases heq : p.hit ray t_min t_max with
    | none => rfl
    | some rec =>
      obtain ⟨h1, h2⟩ := plane_hit_t_range heq
      obtain ⟨hp, hs⟩ := plane_hit_on_surface heq
      exact absurd (hp ▸ hs) (hno rec.t h1 h2)
  · intro cb hx hy hz hno
    cases heq : cb.hit ray t_min t_max with
    | none => rfl
    | some rec =>
      obtain ⟨h1, h2⟩ := cube_hit_t_range heq
      obtain ⟨hp, hs⟩ := cube_hit_on_surface hx hy hz heq
      exact absurd (hp ▸ hs) (hno rec.t h1 h2)
  · intro cy ha hno
    cases heq : cy.hit ray t_min t_max with
    | none => rfl
    | some rec =>
      obtain ⟨h1, h2⟩ := cylinder_hit_t_range heq
      obtain ⟨hp, hs⟩ := cylinder_hit_on_surface ha heq
      exact absurd (hp ▸ hs) (hno rec.t h1 h2)

/-- C1 witness: the unit sphere hit from `(0,0,5)` toward `(0,0,-1)` over
    `[0,10]` has `t = 4 ∈ [0,10]` and its hit point lies on the sphere. -/
theorem claim1_witness :
    (0 : ℝ) ≤ 4 ∧ ((4 : ℝ) : WithTop ℝ) ≤ ((10 : ℝ) : WithTop ℝ) ∧
      Sphere.onSurface ⟨⟨0, 0, 0⟩, 1, mat0⟩ ⟨0, 0, 1⟩ := by
  have hhit : Sphere.hit ⟨⟨0, 0, 0⟩, 1, mat0⟩ ⟨⟨0, 0, 5⟩, ⟨0, 0, -1⟩⟩ 0
      ((10 : ℝ) : WithTop ℝ) = some ⟨⟨0, 0, 1⟩, ⟨0, 0, 1⟩, 4, true⟩ := by
    unfold Sphere.hit
    simp only [Vec3.dot, Vec3.length_squared, Vec3.sub_x, Vec3.sub_y, Vec3.sub_z,
      WithTop.coe_lt_coe, WithTop.coe_le_coe]
    norm_num [HitRecord.new, Ray.at', Vec3.dot]
    constructor <;> (ext <;> simp) <;> norm_num
  have h := (claim1_hit_interval ⟨⟨0, 0, 5⟩, ⟨0, 0, -1⟩⟩ 0 ((10 : ℝ) : WithTop ℝ)).1
    ⟨⟨0, 0, 0⟩, 1, mat0⟩ ⟨⟨0, 0, 1⟩, ⟨0, 0, 1⟩, 4, true⟩ hhit
  have ha : (Ray.mk ⟨0, 0, 5⟩ ⟨0, 0, -1⟩).direction.length_squared ≠ 0 := by
    norm_num [Vec3.length_squared]
  exact ⟨h.1.1, h.1.2, (h.2 ha).2⟩

/-! ## Claim C5: the sphere's quadratic roots -/

/-- The sphere test's discriminant `half_b² - a·c`. -/
def Sphere.discriminant (s : Sphere) (ray : Ray) : ℝ :=
  ((ray.origin - s.center).dot ray.direction) *
      ((ray.origin - s.center).dot ray.direction) -
    ray.direction.length_squared *
      ((ray.origin - s.center).length_squared - s.radius * s.radius)

/-- The smaller quadratic root `(-half_b - √disc) / a`. -/
def Sphere.root1 (s : Sphere) (ray : Ray) : ℝ :=
  (-((ray.origin - s.center).dot ray.direction) - Real.sqrt (s.discriminant ray)) /
    ray.direction.length_squared

/-- The larger quadratic root `(-half_b + √disc) / a`. -/
def Sphere.root2 (s : Sphere) (ray : Ray) : ℝ :=
  (-((ray.origin - s.center).dot ray.direction) + Real.sqrt (s.discriminant ray)) /
    ray.direction.length_squared

theorem Vec3.length_squared_nonneg (a : Vec3) : 0 ≤ a.length_squared :=
  add_nonneg (add_nonneg (mul_self_nonneg _) (mul_self_nonneg _)) (mul_self_nonneg _)

theorem Sphere.root1_le_root2 (s : Sphere) (ray : Ray) :
    s.root1 ray ≤ s.root2 ray := by
  unfold Sphere.root1 Sphere.root2
  rcases eq_or_lt_of_le (Vec3.length_squared_nonneg ray.direction) with h0 | hpos
  · rw [← h0]
    simp
  · rw [div_le_div_iff₀ hpos hpos]
    nlinarith [Real.sqrt_nonneg (s.discriminant ray), hpos.le]

theorem Sphere.hit_prefers_root1 {s : Sphere} {ray : Ray} {t_min : ℝ}
    {t_max : WithTop ℝ} (hdisc : 0 ≤ s.discriminant ray)
    (h1 : t_min ≤ s.root1 ray) (h2 : (s.root1 ray : WithTop ℝ) ≤ t_max) :
    ∃ rec, s.hit ray t_min t_max = some rec ∧ rec.t = s.root1 ray := by
  have hc1 : ¬(s.root1 ray < t_min ∨ t_max < (s.root1 ray : WithTop ℝ)) := by
    push_neg
    exact ⟨h1, h2⟩
  have hdisc' : ¬(s.discriminant ray < 0) := not_lt.2 hdisc
  unfold Sphere.root1 at hc1
  unfold Sphere.discriminant at hc1 hdisc'
  simp only [Sphere.hit]
  rw [if_neg hdisc', if_neg hc1]
  exact ⟨_, rfl, by simp [Sphere.root1, Sphere.discriminant]⟩

theorem Sphere.hit_falls_back_to_root2 {s : Sphere} {ray : Ray} {t_min : ℝ}
    {t_max : WithTop ℝ} (hdisc : 0 ≤ s.discriminant ray)
    (h1 : s.root1 ray < t_min ∨ t_max < (s.root1 ray : WithTop ℝ))
    (h2 : t_min ≤ s.root2 ray) (h3 : (s.root2 ray : WithTop ℝ) ≤ t_max) :
    ∃ rec, s.hit ray t_min t_max = some rec ∧ rec.t = s.root2 ray := by
  have hc2 : ¬(s.root2 ray < t_min ∨ t_max < (s.root2 ray : WithTop ℝ)) := by
    push_neg
    exact ⟨h2, h3⟩
  have hdisc' : ¬(s.discriminant ray < 0) := not_lt.2 hdisc
  unfold Sphere.root2 at hc2
  unfold Sphere.root1 at h1
  unfold Sphere.discriminant at hc2 hdisc' h1
  simp only [Sphere.hit]
  rw [if_neg hdisc', if_pos h1, if_neg hc2]
  exact ⟨_, rfl, by simp [Sphere.root2, Sphere.discriminant]⟩

/-- C5: a sphere of radius `r ∈ (0,5)` at the origin, hit from `(0,0,5)`
    toward `(0,0,-1)` over any interval containing `5-r`, yields
    `t = 5-r`, point `(0,0,r)`, outward normal `(0,0,1)` (front face); and in
    general the test prefers the smaller root `root1` when it is in range,
    falling back to the larger root `root2`. -/
theorem claim5_sphere_behavior :
    (∀ r : ℝ, 0 < r → r < 5 → ∀ (mat : Material) (t_min : ℝ) (t_max : WithTop ℝ),
      t_min ≤ 5 - r → ((5 - r : ℝ) : WithTop ℝ) ≤ t_max →
      Sphere.hit ⟨⟨0, 0, 0⟩, r, mat⟩ ⟨⟨0, 0, 5⟩, ⟨0, 0, -1⟩⟩ t_min t_max
        = some ⟨⟨0, 0, r⟩, ⟨0, 0, 1⟩, 5 - r, true⟩) ∧
    (∀ (s : Sphere) (ray : Ray) (t_min : ℝ) (t_max : WithTop ℝ),
      0 ≤ s.discriminant ray →
      s.root1 ray ≤ s.root2 ray ∧
      (t_min ≤ s.root1 ray → (s.root1 ray : WithTop ℝ) ≤ t_max →
        ∃ rec, s.hit ray t_min t_max = some rec ∧ rec.t = s.root1 ray) ∧
      ((s.root1 ray < t_min ∨ t_max < (s.root1 ray : WithTop ℝ)) →
        t_min ≤ s.root2 ray → (s.root2 ray : WithTop ℝ) ≤ t_max →
        ∃ rec, s.hit ray t_min t_max = some rec ∧ rec.t = s.root2 ray)) := by
  constructor
  · intro r hr0 _hr5 mat t_min t_max hlo hhi
    unfold Sphere.hit
    simp only [Vec3.dot, Vec3.length_squared, Vec3.sub_x, Vec3.sub_y, Vec3.sub_z]
    norm_num
    refine ⟨mul_self_nonneg r, ?_⟩
    rw [Real.sqrt_mul_self hr0.le]
    have hcond : ¬(5 - r < t_min ∨ t_max < 5 - (r : WithTop ℝ)) := by
      push_neg
      refine ⟨hlo, ?_⟩
      exact_mod_cast hhi
    rw [if_neg hcond]
    norm_num [HitRecord.new, Ray.at', Vec3.dot, div_self hr0.ne']
    constructor <;> · ext <;> simp <;> field_simp
  · intro s ray t_min t_max hdisc
    exact ⟨Sphere.root1_le_root2 s ray,
      fun h1 h2 => Sphere.hit_prefers_root1 hdisc h1 h2,
      fun h1 h2 h3 => Sphere.hit_falls_back_to_root2 hdisc h1 h2 h3⟩

/-- C5 witness: the radius-1 instance over `[0,10]` hits at `t = 5-1` with
    point `(0,0,1)` and normal `(0,0,1)`. -/
theorem claim5_witness :
    Sphere.hit ⟨⟨0, 0, 0⟩, 1, mat0⟩ ⟨⟨0, 0, 5⟩, ⟨0, 0, -1⟩⟩ 0
      ((10 : ℝ) : WithTop ℝ) = some ⟨⟨0, 0, 1⟩, ⟨0, 0, 1⟩, 5 - 1, true⟩ :=
  claim5_sphere_behavior.1 1 (by norm_num) (by norm_num) mat0 0 _ (by norm_num)
    (by exact_mod_cast (by norm_num : ((5 : ℝ) - 1) ≤ 10))

/-! ## Claim C3: cylinder candidate priority -/

/-- The cylinder test's discriminant `b² - 4ac` of the (x,z) quadratic. -/
def Cylinder.discriminant (cy : Cylinder) (ray : Ray) : ℝ :=
  (2 * ((ray.origin - cy.center).x * ray.direction.x +
      (ray.origin - cy.center).z * ray.direction.z)) *
    (2 * ((ray.origin - cy.center).x * ray.direction.x +
      (ray.origin - cy.center).z * ray.direction.z)) -
  4 * (ray.direction.x * ray.direction.x + ray.direction.z * ray.direction.z) *
    ((ray.origin - cy.center).x * (ray.origin - cy.center).x +
      (ray.origin - cy.center).z * (ray.origin - cy.center).z -
      cy.radius * cy.radius)

/-- The smaller lateral root `t1 = (-b - √disc) / (2a)`. -/
def Cylinder.lat1 (cy : Cylinder) (ray : Ray) : ℝ :=
  (-(2 * ((ray.origin - cy.center).x * ray.direction.x +
      (ray.origin - cy.center).z * ray.direction.z)) -
    Real.sqrt (cy.discriminant ray)) /
  (2 * (ray.direction.x * ray.direction.x + ray.direction.z * ray.direction.z))

/-- The larger lateral root `t2 = (-b + √disc) / (2a)`. -/
def Cylinder.lat2 (cy : Cylinder) (ray : Ray) : ℝ :=
  (-(2 * ((ray.origin - cy.center).x * ray.direction.x +
      (ray.origin - cy.center).z * ray.direction.z)) +
    Real.sqrt (cy.discriminant ray)) /
  (2 * (ray.direction.x * ray.direction.x + ray.direction.z * ray.direction.z))

/-- C3 (amended): `Cylinder::hit` returns the first valid candidate in the
    fixed order lateral `t1`, lateral `t2`, bottom cap, top cap — hence a
    valid lateral candidate always wins, even when a cap candidate has a
    smaller ray parameter. -/
theorem claim3_candidate_priority :
    ∀ (cy : Cylinder) (ray : Ray) (t_min : ℝ) (t_max : WithTop ℝ),
      ¬(cy.discriminant ray < 0) →
      (∀ rec, cy.side ray t_min t_max (cy.lat1 ray) = some rec →
        cy.hit ray t_min t_max = some rec) ∧
      (cy.side ray t_min t_max (cy.lat1 ray) = none →
        ∀ rec, cy.side ray t_min t_max (cy.lat2 ray) = some rec →
        cy.hit ray t_min t_max = some rec) ∧
      (cy.side ray t_min t_max (cy.lat1 ray) = none →
        cy.side ray t_min t_max (cy.lat2 ray) = none →
        cy.hit ray t_min t_max =
          (if |ray.direction.y| > 1e-8 then
            (cy.cap ray t_min t_max (cy.center.y - cy.height / 2) (-1)).or
              (cy.cap ray t_min t_max (cy.center.y + cy.height / 2) 1)
          else none)) := by
  intro cy ray t_min t_max hdisc
  have hd' := hdisc
  unfold Cylinder.discriminant at hd'
  refine ⟨?_, ?_, ?_⟩
  · intro rec h1
    unfold Cylinder.lat1 Cylinder.discriminant at h1
    simp only [Cylinder.hit]
    rw [if_neg hd', h1]
    rfl
  · intro h1 rec h2
    unfold Cylinder.lat1 Cylinder.discriminant at h1
    unfold Cylinder.lat2 Cylinder.discriminant at h2
    simp only [Cylinder.hit]
    rw [if_neg hd', h1, h2]
    rfl
  · intro h1 h2
    unfold Cylinder.lat1 Cylinder.discriminant at h1
    unfold Cylinder.lat2 Cylinder.discriminant at h2
    simp only [Cylinder.hit]
    rw [if_neg hd', h1, h2]
    rfl

/-- Shared concrete evaluation: the unit-radius height-2 cylinder at the
    origin, probed by the ray from `(0,2,0)` along `(1/2,-1,0)` over
    `[0,100]`, returns the lateral exit hit at `t = 2`. -/
theorem Cylinder.hit_lateral_example :
    Cylinder.hit ⟨⟨0, 0, 0⟩, 1, 2, mat0⟩ ⟨⟨0, 2, 0⟩, ⟨1/2, -1, 0⟩⟩ 0
      ((100 : ℝ) : WithTop ℝ) = some ⟨⟨1, 0, 0⟩, ⟨-1, 0, 0⟩, 2, false⟩ := by
  unfold Cylinder.hit Cylinder.side
  simp only [Vec3.dot, Vec3.sub_x, Vec3.sub_y, Vec3.sub_z, WithTop.coe_lt_coe,
    WithTop.coe_le_coe]
  norm_num [Ray.at']
  norm_num [HitRecord.new, Vec3.dot]
  constructor <;> (ext <;> norm_num)

/-- Shared concrete evaluation: the same cylinder's top cap candidate at
    `t = 1` is valid over `[0,100]`. -/
theorem Cylinder.cap_example :
    Cylinder.cap ⟨⟨0, 0, 0⟩, 1, 2, mat0⟩ ⟨⟨0, 2, 0⟩, ⟨1/2, -1, 0⟩⟩ 0
      ((100 : ℝ) : WithTop ℝ) (0 + 2 / 2) 1
      = some ⟨⟨1/2, 1, 0⟩, ⟨0, 1, 0⟩, 1, true⟩ := by
  unfold Cylinder.cap
  simp only [Vec3.sub_x, Vec3.sub_y, Vec3.sub_z, WithTop.coe_lt_coe,
    WithTop.coe_le_coe]
  norm_num [Ray.at']
  norm_num [HitRecord.new, Vec3.dot]
  ext <;> norm_num

/-- C3 counterexample: for the unit-radius, height-2 cylinder at the origin
    and the ray from `(0,2,0)` with direction `(1/2,-1,0)` over `[0,100]`,
    the top-cap candidate at `t = 1` and the lateral candidate at `t = 2` are
    both valid, yet `hit` reports the lateral hit `t = 2`, not the nearer
    `t = 1`. -/
theorem claim3_counterexample :
    Cylinder.hit ⟨⟨0, 0, 0⟩, 1, 2, mat0⟩ ⟨⟨0, 2, 0⟩, ⟨1/2, -1, 0⟩⟩ 0
      ((100 : ℝ) : WithTop ℝ) = some ⟨⟨1, 0, 0⟩, ⟨-1, 0, 0⟩, 2, false⟩ ∧
    Cylinder.cap ⟨⟨0, 0, 0⟩, 1, 2, mat0⟩ ⟨⟨0, 2, 0⟩, ⟨1/2, -1, 0⟩⟩ 0
      ((100 : ℝ) : WithTop ℝ) (0 + 2 / 2) 1
      = some ⟨⟨1/2, 1, 0⟩, ⟨0, 1, 0⟩, 1, true⟩ ∧
    (1 : ℝ) < 2 :=
  ⟨Cylinder.hit_lateral_example, Cylinder.cap_example, by norm_num⟩

/-- C3 witness: at the counterexample input the smaller lateral root `-2` is
    out of range, the larger lateral root `2` is valid, and `hit` returns it. -/
theorem claim3_witness :
    Cylinder.hit ⟨⟨0, 0, 0⟩, 1, 2, mat0⟩ ⟨⟨0, 2, 0⟩, ⟨1/2, -1, 0⟩⟩ 0
      ((100 : ℝ) : WithTop ℝ) = some ⟨⟨1, 0, 0⟩, ⟨-1, 0, 0⟩, 2, false⟩ := by
  have hd : ¬(Cylinder.discriminant ⟨⟨0, 0, 0⟩, 1, 2, mat0⟩ ⟨⟨0, 2, 0⟩, ⟨1/2, -1, 0⟩⟩ < 0) := by
    unfold Cylinder.discriminant
    norm_num
  have hl1 : Cylinder.lat1 ⟨⟨0, 0, 0⟩, 1, 2, mat0⟩ ⟨⟨0, 2, 0⟩, ⟨1/2, -1, 0⟩⟩ = -2 := by
    unfold Cylinder.lat1 Cylinder.discriminant
    norm_num
  have hl2 : Cylinder.lat2 ⟨⟨0, 0, 0⟩, 1, 2, mat0⟩ ⟨⟨0, 2, 0⟩, ⟨1/2, -1, 0⟩⟩ = 2 := by
    unfold Cylinder.lat2 Cylinder.discriminant
    norm_num
  have hs1 : Cylinder.side ⟨⟨0, 0, 0⟩, 1, 2, mat0⟩ ⟨⟨0, 2, 0⟩, ⟨1/2, -1, 0⟩⟩ 0
      ((100 : ℝ) : WithTop ℝ) (Cylinder.lat1 ⟨⟨0, 0, 0⟩, 1, 2, mat0⟩ ⟨⟨0, 2, 0⟩, ⟨1/2, -1, 0⟩⟩)
      = none := by
    rw [hl1]
    unfold Cylinder.side
    norm_num
  have hs2 : Cylinder.side ⟨⟨0, 0, 0⟩, 1, 2, mat0⟩ ⟨⟨0, 2, 0⟩, ⟨1/2, -1, 0⟩⟩ 0
      ((100 : ℝ) : WithTop ℝ) (Cylinder.lat2 ⟨⟨0, 0, 0⟩, 1, 2, mat0⟩ ⟨⟨0, 2, 0⟩, ⟨1/2, -1, 0⟩⟩)
      = some ⟨⟨1, 0, 0⟩, ⟨-1, 0, 0⟩, 2, false⟩ := by
    rw [hl2]
    unfold Cylinder.side
    simp only [Vec3.sub_x, Vec3.sub_y, Vec3.sub_z, WithTop.coe_lt_coe, WithTop.coe_le_coe]
    norm_num [Ray.at']
    norm_num [HitRecord.new, Vec3.dot]
    constructor <;> (ext <;> norm_num)
  exact (claim3_candidate_priority ⟨⟨0, 0, 0⟩, 1, 2, mat0⟩ ⟨⟨0, 2, 0⟩, ⟨1/2, -1, 0⟩⟩ 0
    ((100 : ℝ) : WithTop ℝ) hd).2.1 hs1 _ hs2

/-! ## Claim C4: cube face-normal selection -/

theorem HitRecord.new_normal (p n : Vec3) (t : ℝ) (r : Ray) :
    (HitRecord.new p n t r).normal = n ∨ (HitRecord.new p n t r).normal = -n := by
  unfold HitRecord.new
  split
  · exact Or.inl rfl
  · exact Or.inr rfl

/-- Concrete cube evaluation shared by the C4 counterexample and witness:
    the ray from `(2,2,-1)` along `(-1,-1,1)` meets the size-2 cube at the
    origin at `t = 1`, point `(1,1,0)` (an edge point with `|x| = |y|`
    offsets), and the reported normal is the y-face normal `(0,1,0)`. -/
theorem Cube.hit_edge_example :
    Cube.hit ⟨⟨0, 0, 0⟩, 2, mat0⟩ ⟨⟨2, 2, -1⟩, ⟨-1, -1, 1⟩⟩ 0 ((10 : ℝ) : WithTop ℝ)
      = some ⟨⟨1, 1, 0⟩, ⟨0, 1, 0⟩, 1, true⟩ := by
  unfold Cube.hit Cube.tsel Cube.tmin_slab Cube.tmax_slab Cube.t1 Cube.t2 Cube.t3
    Cube.t4 Cube.t5 Cube.t6 Cube.mn Cube.mx Cube.faceNormal
  simp only [Vec3.sub_x, Vec3.sub_y, Vec3.sub_z, Vec3.add_x, Vec3.add_y, Vec3.add_z,
    WithTop.coe_lt_coe, WithTop.coe_le_coe]
  norm_num [min_def, max_def, Ray.at']
  norm_num [HitRecord.new, Vec3.dot, rsignum]
  ext <;> norm_num

/-- C4 counterexample: at the edge hit point `(1,1,0)` the x- and y-offsets
    tie in magnitude (`|1| = |1|`), yet the reported normal is the y-axis
    normal `(0,1,0)`, not the x-axis normal the claim's x > y > z tie-break
    predicts. -/
theorem claim4_counterexample :
    Cube.hit ⟨⟨0, 0, 0⟩, 2, mat0⟩ ⟨⟨2, 2, -1⟩, ⟨-1, -1, 1⟩⟩ 0 ((10 : ℝ) : WithTop ℝ)
      = some ⟨⟨1, 1, 0⟩, ⟨0, 1, 0⟩, 1, true⟩ ∧
    |((⟨1, 1, 0⟩ : Vec3) - (⟨0, 0, 0⟩ : Vec3)).x| =
      |((⟨1, 1, 0⟩ : Vec3) - (⟨0, 0, 0⟩ : Vec3)).y| ∧
    (⟨0, 1, 0⟩ : Vec3) ≠ ⟨rsignum ((⟨1, 1, 0⟩ : Vec3) - (⟨0, 0, 0⟩ : Vec3)).x, 0, 0⟩ ∧
    (⟨0, 1, 0⟩ : Vec3) ≠ -⟨rsignum ((⟨1, 1, 0⟩ : Vec3) - (⟨0, 0, 0⟩ : Vec3)).x, 0, 0⟩ := by
  refine ⟨Cube.hit_edge_example, by norm_num, ?_, ?_⟩ <;>
    · intro hcontra
      rw [Vec3.ext_iff] at hcontra
      norm_num [rsignum] at hcontra

/-- Which face normal `Cube::hit` selects: the x axis only when strictly
    dominant, else y when strictly larger than z, else z. -/
theorem Cube.faceNormal_spec (cb : Cube) (p : Vec3) :
    (|(p - cb.center).x| > |(p - cb.center).y| ∧
      |(p - cb.center).x| > |(p - cb.center).z| ∧
      cb.faceNormal p = ⟨rsignum (p - cb.center).x, 0, 0⟩) ∨
    (|(p - cb.center).y| ≥ |(p - cb.center).x| ∧
      |(p - cb.center).y| > |(p - cb.center).z| ∧
      cb.faceNormal p = ⟨0, rsignum (p - cb.center).y, 0⟩) ∨
    (|(p - cb.center).z| ≥ |(p - cb.center).x| ∧
      |(p - cb.center).z| ≥ |(p - cb.center).y| ∧
      cb.faceNormal p = ⟨0, 0, rsignum (p - cb.center).z⟩) := by
  have hval : cb.faceNormal p =
      (if |(p - cb.center).x| > |(p - cb.center).y| ∧
          |(p - cb.center).x| > |(p - cb.center).z| then
        (⟨rsignum (p - cb.center).x, 0, 0⟩ : Vec3)
      else if |(p - cb.center).y| > |(p - cb.center).z| then
        ⟨0, rsignum (p - cb.center).y, 0⟩
      else ⟨0, 0, rsignum (p - cb.center).z⟩) := rfl
  rw [hval]
  split_ifs with hc1 hc2
  · exact Or.inl ⟨hc1.1, hc1.2, rfl⟩
  · refine Or.inr (Or.inl ⟨?_, hc2, rfl⟩)
    rcases not_and_or.mp hc1 with h' | h'
    · exact le_of_not_lt h'
    · exact le_trans (le_of_not_lt h') hc2.le
  · refine Or.inr (Or.inr ⟨?_, le_of_not_lt hc2, rfl⟩)
    rcases not_and_or.mp hc1 with h' | h'
    · exact le_trans (le_of_not_lt h') (le_of_not_lt hc2)
    · exact le_of_not_lt h'

/-- C4 (amended): the reported cube normal is, up to the front-face
    orientation flip of `HitRecord::new`, the signed unit axis vector of an
    axis of maximal center-offset magnitude at the hit point, with ties
    broken in favour of later axes: x only when strictly dominant, else y
    when strictly larger than z, else z. -/
theorem claim4_cube_normal :
    ∀ (cb : Cube) (ray : Ray) (t_min : ℝ) (t_max : WithTop ℝ) (rec : HitRecord),
      cb.hit ray t_min t_max = some rec →
      ∃ s : ℝ, (s = 1 ∨ s = -1) ∧
        ((|(rec.point - cb.center).x| > |(rec.point - cb.center).y| ∧
          |(rec.point - cb.center).x| > |(rec.point - cb.center).z| ∧
          rec.normal = ⟨s * rsignum (rec.point - cb.center).x, 0, 0⟩) ∨
        (|(rec.point - cb.center).y| ≥ |(rec.point - cb.center).x| ∧
          |(rec.point - cb.center).y| > |(rec.point - cb.center).z| ∧
          rec.normal = ⟨0, s * rsignum (rec.point - cb.center).y, 0⟩) ∨
        (|(rec.point - cb.center).z| ≥ |(rec.point - cb.center).x| ∧
          |(rec.point - cb.center).z| ≥ |(rec.point - cb.center).y| ∧
          rec.normal = ⟨0, 0, s * rsignum (rec.point - cb.center).z⟩)) := by
  intro cb ray t_min t_max rec h
  simp only [Cube.hit] at h
  split_ifs at h with h1 h2
  rw [Option.some.injEq] at h
  subst h
  simp only [HitRecord.new_point]
  rcases HitRecord.new_normal (ray.at' (cb.tsel ray t_min))
      (cb.faceNormal (ray.at' (cb.tsel ray t_min))) (cb.tsel ray t_min) ray with
    hn | hn <;>
  rcases Cube.faceNormal_spec cb (ray.at' (cb.tsel ray t_min)) with
    ⟨ha, hb, he⟩ | ⟨ha, hb, he⟩ | ⟨ha, hb, he⟩
  · exact ⟨1, Or.inl rfl, Or.inl ⟨ha, hb, by rw [hn, he]; ext <;> simp⟩⟩
  · exact ⟨1, Or.inl rfl, Or.inr (Or.inl ⟨ha, hb, by rw [hn, he]; ext <;> simp⟩)⟩
  · exact ⟨1, Or.inl rfl, Or.inr (Or.inr ⟨ha, hb, by rw [hn, he]; ext <;> simp⟩)⟩
  · exact ⟨-1, Or.inr rfl, Or.inl ⟨ha, hb, by rw [hn, he]; ext <;> simp⟩⟩
  · exact ⟨-1, Or.inr rfl, Or.inr (Or.inl ⟨ha, hb, by rw [hn, he]; ext <;> simp⟩)⟩
  · exact ⟨-1, Or.inr rfl, Or.inr (Or.inr ⟨ha, hb, by rw [hn, he]; ext <;> simp⟩)⟩

/-- C4 witness: at the edge hit `(1,1,0)` the amended tie-break selects the
    y axis (`|y| ≥ |x|`, `|y| > |z|`) and the reported normal is `(0,1,0)`. -/
theorem claim4_witness :
    ∃ s : ℝ, (s = 1 ∨ s = -1) ∧
      ((|((⟨1, 1, 0⟩ : Vec3) - (⟨0, 0, 0⟩ : Vec3)).x| >
          |((⟨1, 1, 0⟩ : Vec3) - (⟨0, 0, 0⟩ : Vec3)).y| ∧
        |((⟨1, 1, 0⟩ : Vec3) - (⟨0, 0, 0⟩ : Vec3)).x| >
          |((⟨1, 1, 0⟩ : Vec3) - (⟨0, 0, 0⟩ : Vec3)).z| ∧
        (⟨0, 1, 0⟩ : Vec3) =
          ⟨s * rsignum ((⟨1, 1, 0⟩ : Vec3) - (⟨0, 0, 0⟩ : Vec3)).x, 0, 0⟩) ∨
      (|((⟨1, 1, 0⟩ : Vec3) - (⟨0, 0, 0⟩ : Vec3)).y| ≥
          |((⟨1, 1, 0⟩ : Vec3) - (⟨0, 0, 0⟩ : Vec3)).x| ∧
        |((⟨1, 1, 0⟩ : Vec3) - (⟨0, 0, 0⟩ : Vec3)).y| >
          |((⟨1, 1, 0⟩ : Vec3) - (⟨0, 0, 0⟩ : Vec3)).z| ∧
        (⟨0, 1, 0⟩ : Vec3) =
          ⟨0, s * rsignum ((⟨1, 1, 0⟩ : Vec3) - (⟨0, 0, 0⟩ : Vec3)).y, 0⟩) ∨
      (|((⟨1, 1, 0⟩ : Vec3) - (⟨0, 0, 0⟩ : Vec3)).z| ≥
          |((⟨1, 1, 0⟩ : Vec3) - (⟨0, 0, 0⟩ : Vec3)).x| ∧
        |((⟨1, 1, 0⟩ : Vec3) - (⟨0, 0, 0⟩ : Vec3)).z| ≥
          |((⟨1, 1, 0⟩ : Vec3) - (⟨0, 0, 0⟩ : Vec3)).y| ∧
        (⟨0, 1, 0⟩ : Vec3) =
          ⟨0, 0, s * rsignum ((⟨1, 1, 0⟩ : Vec3) - (⟨0, 0, 0⟩ : Vec3)).z⟩)) :=
  claim4_cube_normal ⟨⟨0, 0, 0⟩, 2, mat0⟩ ⟨⟨2, 2, -1⟩, ⟨-1, -1, 1⟩⟩ 0
    ((10 : ℝ) : WithTop ℝ) ⟨⟨1, 1, 0⟩, ⟨0, 1, 0⟩, 1, true⟩ Cube.hit_edge_example

/-! ## Claim C10: `Image::set_pixel` frame conditions -/

/-- Distinct in-bounds grid cells have distinct row-major linear indices. -/
theorem grid_index_inj {w x x' y y' : ℕ} (hx : x < w) (hx' : x' < w)
    (hne : (x', y') ≠ (x, y)) : y' * w + x' ≠ y * w + x := by
  intro heq
  apply hne
  have hyy : y' = y := by
    by_contra hyy
    rcases Nat.lt_or_ge y' y with hlt | hge
    · have : y' * w + x' < y * w + x := by
        calc y' * w + x' < y' * w + w := by omega
        _ = (y' + 1) * w := by ring
        _ ≤ y * w := Nat.mul_le_mul_right w hlt
        _ ≤ y * w + x := Nat.le_add_right _ _
      omega
    · have hlt : y < y' := lt_of_le_of_ne hge fun h => hyy h.symm
      have : y * w + x < y' * w + x' := by
        calc y * w + x < y * w + w := by omega
        _ = (y + 1) * w := by ring
        _ ≤ y' * w := Nat.mul_le_mul_right w hlt
        _ ≤ y' * w + x' := Nat.le_add_right _ _
      omega
  subst hyy
  have : x' = x := by omega
  subst this
  rfl

/-- C10: `set_pixel` changes at most the cell `(x, y)`: the dimensions are
    unchanged, every other in-bounds cell reads the same value, and an
    out-of-bounds coordinate leaves the image entirely unchanged (silent
    no-op). -/
theorem claim10_set_pixel_frame :
    ∀ (img : Image) (x y : ℕ) (c : Vec3),
      ((img.set_pixel x y c).width = img.width ∧
        (img.set_pixel x y c).height = img.height) ∧
      (∀ x' y', x' < img.width → y' < img.height → (x', y') ≠ (x, y) →
        (img.set_pixel x y c).get_pixel x' y' = img.get_pixel x' y') ∧
      (x ≥ img.width ∨ y ≥ img.height → img.set_pixel x y c = img) := by
  intro img x y c
  refine ⟨?_, ?_, ?_⟩
  · unfold Image.set_pixel
    split_ifs <;> exact ⟨rfl, rfl⟩
  · intro x' y' hx' hy' hne
    unfold Image.set_pixel Image.get_pixel
    split_ifs with h1 h2 h3
    · simp only []
      have hne' : y * img.width + x ≠ y' * img.width + x' :=
        (grid_index_inj h1.1 hx' hne).symm
      simp [List.getD_eq_getElem?_getD, List.getElem?_set_ne hne']
    · exact absurd ⟨hx', hy'⟩ h2
    · rfl
    · rfl
  · intro hout
    unfold Image.set_pixel
    rw [if_neg]
    intro ⟨ha, hb⟩
    rcases hout with h | h <;> omega

/-- C10 witness: on a 2×2 image, writing cell (0,1) leaves cell (1,0)
    unchanged, and a write at column 5 is a silent no-op. -/
theorem claim10_witness :
    ((Image.new 2 2).set_pixel 0 1 ⟨1, 2, 3⟩).get_pixel 1 0 =
      (Image.new 2 2).get_pixel 1 0 ∧
    (Image.new 2 2).set_pixel 5 0 ⟨1, 2, 3⟩ = Image.new 2 2 :=
  ⟨(claim10_set_pixel_frame (Image.new 2 2) 0 1 ⟨1, 2, 3⟩).2.1 1 0 (by norm_num [Image.new])
      (by norm_num [Image.new]) (by decide),
    (claim10_set_pixel_frame (Image.new 2 2) 5 0 ⟨1, 2, 3⟩).2.2
      (Or.inl (by norm_num [Image.new]))⟩

/-! ## Claim C8: exhausted bounce budget -/

/-- C8: `ray_color` at depth 0 is pure black for every scene, ray and
    reflection toggle (the `depth <= 0` guard fires before any scene query). -/
theorem claim8_depth_zero_black :
    ∀ (s : Scene) (ray : Ray) (enable_reflection : Bool),
      s.ray_color ray 0 enable_reflection = Vec3.zero := by
  intro s ray er
  rw [Scene.ray_color]
  norm_num

/-! ## Claim C2: order-independence of the scene scan -/

theorem sphere_hit_eq (s : Sphere) (ray : Ray) (t_min : ℝ) (t_max : WithTop ℝ) :
    s.hit ray t_min t_max =
      if s.discriminant ray < 0 then none
      else if s.root1 ray < t_min ∨ t_max < (s.root1 ray : WithTop ℝ) then
        if s.root2 ray < t_min ∨ t_max < (s.root2 ray : WithTop ℝ) then none
        else some (HitRecord.new (ray.at' (s.root2 ray))
          ((ray.at' (s.root2 ray) - s.center) / s.radius) (s.root2 ray) ray)
      else some (HitRecord.new (ray.at' (s.root1 ray))
        ((ray.at' (s.root1 ray) - s.center) / s.radius) (s.root1 ray) ray) := rfl

theorem sphere_hit_filter (s : Sphere) (ray : Ray) (t_min : ℝ) (t_max : WithTop ℝ) :
    s.hit ray t_min t_max = (s.hit ray t_min ⊤).bind
      (fun rec => if (rec.t : WithTop ℝ) ≤ t_max then some rec else none) := by
  have h12 := Sphere.root1_le_root2 s ray
  rw [sphere_hit_eq s ray t_min t_max, sphere_hit_eq s ray t_min ⊤]
  by_cases hd : s.discriminant ray < 0
  · rw [if_pos hd, if_pos hd]
    rfl
  rw [if_neg hd, if_neg hd]
  by_cases ha1 : s.root1 ray < t_min
  · rw [if_pos (Or.inl ha1), if_pos (Or.inl ha1)]
    by_cases ha2 : s.root2 ray < t_min
    · rw [if_pos (Or.inl ha2), if_pos (Or.inl ha2)]
      rfl
    · have hc2 : ¬(s.root2 ray < t_min ∨ (⊤ : WithTop ℝ) < ↑(s.root2 ray)) := by
        rintro (h | h)
        · exact ha2 h
        · exact not_top_lt h
      rw [if_neg hc2]
      simp only [Option.some_bind, HitRecord.new_t]
      by_cases hb2 : t_max < (s.root2 ray : WithTop ℝ)
      · rw [if_pos (Or.inr hb2), if_neg (not_le.2 hb2)]
      · rw [if_neg ?_, if_pos (not_lt.1 hb2)]
        rintro (h | h)
        · exact ha2 h
        · exact hb2 h
  · have hc1 : ¬(s.root1 ray < t_min ∨ (⊤ : WithTop ℝ) < ↑(s.root1 ray)) := by
      rintro (h | h)
      · exact ha1 h
      · exact not_top_lt h
    rw [if_neg hc1]
    simp only [Option.some_bind, HitRecord.new_t]
    by_cases hb1 : t_max < (s.root1 ray : WithTop ℝ)
    · rw [if_pos (Or.inr hb1), if_neg (not_le.2 hb1),
        if_pos (Or.inr (lt_of_lt_of_le hb1 (WithTop.coe_le_coe.2 h12)))]
    · rw [if_neg ?_, if_pos (not_lt.1 hb1)]
      rintro (h | h)
      · exact ha1 h
      · exact hb1 h

/-- The plane's single candidate parameter. -/
def Plane.tHit (p : Plane) (ray : Ray) : ℝ :=
  (p.point - ray.origin).dot p.normal / (p.normal.dot ray.direction)

theorem plane_hit_eq (p : Plane) (ray : Ray) (t_min : ℝ) (t_max : WithTop ℝ) :
    p.hit ray t_min t_max =
      if |p.normal.dot ray.direction| < 1e-8 then none
      else if p.tHit ray < t_min ∨ (p.tHit ray : WithTop ℝ) > t_max then none
      else some (HitRecord.new (ray.at' (p.tHit ray)) p.normal (p.tHit ray) ray) := rfl

theorem plane_hit_filter (p : Plane) (ray : Ray) (t_min : ℝ) (t_max : WithTop ℝ) :
    p.hit ray t_min t_max = (p.hit ray t_min ⊤).bind
      (fun rec => if (rec.t : WithTop ℝ) ≤ t_max then some rec else none) := by
  rw [plane_hit_eq p ray t_min t_max, plane_hit_eq p ray t_min ⊤]
  by_cases hd : |p.normal.dot ray.direction| < 1e-8
  · rw [if_pos hd, if_pos hd]
    rfl
  rw [if_neg hd, if_neg hd]
  by_cases ha : p.tHit ray < t_min
  · rw [if_pos (Or.inl ha), if_pos (Or.inl ha)]
    rfl
  · have hc : ¬(p.tHit ray < t_min ∨ (p.tHit ray : WithTop ℝ) > (⊤ : WithTop ℝ)) := by
      rintro (h | h)
      · exact ha h
      · exact not_top_lt h
    rw [if_neg hc]
    simp only [Option.some_bind, HitRecord.new_t]
    by_cases hb : t_max < (p.tHit ray : WithTop ℝ)
    · rw [if_pos (Or.inr hb), if_neg (not_le.2 hb)]
    · rw [if_neg ?_, if_pos (not_lt.1 hb)]
      rintro (h | h)
      · exact ha h
      · exact hb h

theorem cube_hit_filter (cb : Cube) (ray : Ray) (t_min : ℝ) (t_max : WithTop ℝ) :
    cb.hit ray t_min t_max = (cb.hit ray t_min ⊤).bind
      (fun rec => if (rec.t : WithTop ℝ) ≤ t_max then some rec else none) := by
  show (if cb.tmax_slab ray < 0 ∨ cb.tmin_slab ray > cb.tmax_slab ray then none
      else if cb.tsel ray t_min < t_min ∨ (cb.tsel ray t_min : WithTop ℝ) > t_max then none
      else some (HitRecord.new (ray.at' (cb.tsel ray t_min))
        (cb.faceNormal (ray.at' (cb.tsel ray t_min))) (cb.tsel ray t_min) ray)) = _
  by_cases hd : cb.tmax_slab ray < 0 ∨ cb.tmin_slab ray > cb.tmax_slab ray
  · rw [if_pos hd]
    show _ = (if cb.tmax_slab ray < 0 ∨ cb.tmin_slab ray > cb.tmax_slab ray then none
      else if cb.tsel ray t_min < t_min ∨ (cb.tsel ray t_min : WithTop ℝ) > (⊤ : WithTop ℝ)
        then none
      else some (HitRecord.new (ray.at' (cb.tsel ray t_min))
        (cb.faceNormal (ray.at' (cb.tsel ray t_min))) (cb.tsel ray t_min) ray)).bind _
    rw [if_pos hd]
    rfl
  rw [if_neg hd]
  show _ = (if cb.tmax_slab ray < 0 ∨ cb.tmin_slab ray > cb.tmax_slab ray then none
    else if cb.tsel ray t_min < t_min ∨ (cb.tsel ray t_min : WithTop ℝ) > (⊤ : WithTop ℝ)
      then none
    else some (HitRecord.new (ray.at' (cb.tsel ray t_min))
      (cb.faceNormal (ray.at' (cb.tsel ray t_min))) (cb.tsel ray t_min) ray)).bind _
  rw [if_neg hd]
  by_cases ha : cb.tsel ray t_min < t_min
  · rw [if_pos (Or.inl ha), if_pos (Or.inl ha)]
    rfl
  · have hc : ¬(cb.tsel ray t_min < t_min ∨
        (cb.tsel ray t_min : WithTop ℝ) > (⊤ : WithTop ℝ)) := by
      rintro (h | h)
      · exact ha h
      · exact not_top_lt h
    rw [if_neg hc]
    simp only [Option.some_bind, HitRecord.new_t]
    by_cases hb : t_max < (cb.tsel ray t_min : WithTop ℝ)
    · rw [if_pos (Or.inr hb), if_neg (not_le.2 hb)]
    · rw [if_neg ?_, if_pos (not_lt.1 hb)]
      rintro (h | h)
      · exact ha h
      · exact hb h

/-- Every non-cylinder primitive's hit is the full-interval candidate
    filtered by the upper bound: the candidate itself does not depend on
    `t_max`. (The cylinder violates this: tightening `t_max` can switch the
    result from a lateral hit to a nearer cap hit.) -/
theorem prim_hit_filter {o : Prim} (hnc : o.isCyl = false) (ray : Ray) (t_min : ℝ)
    (t_max : WithTop ℝ) :
    o.hit ray t_min t_max = (o.hit ray t_min ⊤).bind
      (fun rec => if (rec.t : WithTop ℝ) ≤ t_max then some rec else none) := by
  cases o with
  | sphere s => exact sphere_hit_filter s ray t_min t_max
  | plane p => exact plane_hit_filter p ray t_min t_max
  | cube cb => exact cube_hit_filter cb ray t_min t_max
  | cylinder cy => exact absurd hnc (by simp [Prim.isCyl])

/-- `hitStep` in terms of the full-interval candidate, for non-cylinders. -/
theorem Scene.hitStep_eq {o : Prim} (hnc : o.isCyl = false) (ray : Ray) (t_min : ℝ)
    (acc : Option (HitRecord × Prim) × WithTop ℝ) :
    Scene.hitStep ray t_min acc o =
      match o.hit ray t_min ⊤ with
      | none => acc
      | some r => if (r.t : WithTop ℝ) ≤ acc.2 then (some (r, o), (r.t : WithTop ℝ))
                  else acc := by
  unfold Scene.hitStep
  rw [prim_hit_filter hnc ray t_min acc.2]
  cases hcand : o.hit ray t_min ⊤ with
  | none => rfl
  | some r =>
    simp only [Option.some_bind]
    by_cases hb : (r.t : WithTop ℝ) ≤ acc.2
    · rw [if_pos hb, if_pos hb]
    · rw [if_neg hb, if_neg hb]

/-- Two consecutive scan steps over distinct-parameter, non-cylinder
    primitives commute, from any accumulator. -/
theorem Scene.hitStep_comm {x y : Prim} (hx : x.isCyl = false) (hy : y.isCyl = false)
    (ray : Ray) (t_min : ℝ)
    (hd : ∀ rx ry, x.hit ray t_min ⊤ = some rx → y.hit ray t_min ⊤ = some ry →
      x ≠ y → rx.t ≠ ry.t)
    (acc : Option (HitRecord × Prim) × WithTop ℝ) :
    Scene.hitStep ray t_min (Scene.hitStep ray t_min acc x) y =
      Scene.hitStep ray t_min (Scene.hitStep ray t_min acc y) x := by
  by_cases hxy : x = y
  · subst hxy
    rfl
  rw [Scene.hitStep_eq hx, Scene.hitStep_eq hy, Scene.hitStep_eq hx, Scene.hitStep_eq hy]
  cases hcx : x.hit ray t_min ⊤ with
  | none => rfl
  | some rx =>
    cases hcy : y.hit ray t_min ⊤ with
    | none => rfl
    | some ry =>
      simp only []
      have hne := hd rx ry hcx hcy hxy
      by_cases hbx : (rx.t : WithTop ℝ) ≤ acc.2
      · by_cases hby : (ry.t : WithTop ℝ) ≤ acc.2
        · rcases lt_or_gt_of_ne hne with hlt | hgt
          · rw [if_pos hbx]
            try simp only []
            rw [if_neg (by simpa [WithTop.coe_le_coe] using not_le.2 hlt),
              if_pos hby]
            try simp only []
            rw [if_pos (by simpa [WithTop.coe_le_coe] using hlt.le)]
          · rw [if_pos hbx]
            try simp only []
            rw [if_pos (by simpa [WithTop.coe_le_coe] using hgt.le.trans (le_refl _)),
              if_pos hby]
            try simp only []
            rw [if_neg (by simpa [WithTop.coe_le_coe] using not_le.2 hgt)]
        · rw [if_pos hbx, if_neg hby]
          try simp only []
          rw [if_neg (fun hcon => hby (hcon.trans hbx))]
          try simp only []
          rw [if_pos hbx]
      · by_cases hby : (ry.t : WithTop ℝ) ≤ acc.2
        · rw [if_neg hbx, if_pos hby]
          try simp only []
          rw [if_neg (fun hcon => hbx (hcon.trans hby))]
        · rw [if_neg hbx, if_neg hby]
          try simp only []
          rw [if_neg hbx]

/-- The scan fold is invariant under permutations of a cylinder-free object
    list whose full-interval hit parameters are pairwise distinct. -/
theorem Scene.foldl_hitStep_perm (ray : Ray) (t_min : ℝ) :
    ∀ {l1 l2 : List Prim}, l1.Perm l2 →
      (∀ o ∈ l1, o.isCyl = false) →
      (∀ x ∈ l1, ∀ y ∈ l1, ∀ rx ry, x.hit ray t_min ⊤ = some rx →
        y.hit ray t_min ⊤ = some ry → x ≠ y → rx.t ≠ ry.t) →
      ∀ acc, l1.foldl (Scene.hitStep ray t_min) acc =
        l2.foldl (Scene.hitStep ray t_min) acc := by
  intro l1 l2 hp
  induction hp with
  | nil => intro _ _ _; rfl
  | cons x p ih =>
    intro hnc hd acc
    simp only [List.foldl_cons]
    exact ih (fun o ho => hnc o (List.mem_cons_of_mem x ho))
      (fun a ha b hb => hd a (List.mem_cons_of_mem x ha) b (List.mem_cons_of_mem x hb)) _
  | swap a b l =>
    intro hnc hd acc
    simp only [List.foldl_cons]
    rw [Scene.hitStep_comm (hnc b (by simp)) (hnc a (by simp)) ray t_min
      (fun rb ra hb ha hne => hd b (by simp) a (by simp) rb ra hb ha hne)]
  | trans p1 p2 ih1 ih2 =>
    intro hnc hd acc
    rw [ih1 hnc hd acc]
    exact ih2 (fun o ho => hnc o (p1.mem_iff.mpr ho))
      (fun a ha b hb => hd a (p1.mem_iff.mpr ha) b (p1.mem_iff.mpr hb)) acc

/-- C2 (amended): `Scene::hit` is invariant under permutation of the
    primitive list — same record (t, point, normal, front_face) and same
    owning primitive (hence material) — provided the scene contains no
    cylinder and no two distinct primitives produce equal full-interval hit
    parameters for the queried ray. -/
theorem claim2_scene_hit_perm :
    ∀ (s1 s2 : Scene) (ray : Ray) (t_min : ℝ) (t_max : WithTop ℝ),
      s1.objects.Perm s2.objects →
      (∀ o ∈ s1.objects, o.isCyl = false) →
      (∀ x ∈ s1.objects, ∀ y ∈ s1.objects, ∀ rx ry, x.hit ray t_min ⊤ = some rx →
        y.hit ray t_min ⊤ = some ry → x ≠ y → rx.t ≠ ry.t) →
      s1.hit ray t_min t_max = s2.hit ray t_min t_max := by
  intro s1 s2 ray t_min t_max hp hnc hd
  unfold Scene.hit
  rw [Scene.foldl_hitStep_perm ray t_min hp hnc hd]

/-- Shared concrete evaluation: the plane `y = 1/2` meets the same ray at
    `t = 3/2` (full interval `[0,100]`). -/
theorem Plane.hit_example_100 :
    Plane.hit ⟨⟨0, 1/2, 0⟩, ⟨0, 1, 0⟩, mat0⟩ ⟨⟨0, 2, 0⟩, ⟨1/2, -1, 0⟩⟩ 0
      ((100 : ℝ) : WithTop ℝ) = some ⟨⟨3/4, 1/2, 0⟩, ⟨0, 1, 0⟩, 3/2, true⟩ := by
  unfold Plane.hit
  simp only [Vec3.dot, Vec3.sub_x, Vec3.sub_y, Vec3.sub_z, WithTop.coe_lt_coe]
  norm_num [HitRecord.new, Ray.at', Vec3.dot]
  ext <;> norm_num

/-- Shared concrete evaluation: the same plane hit with the tightened upper
    bound `t_max = 2` still returns the `t = 3/2` hit. -/
theorem Plane.hit_example_2 :
    Plane.hit ⟨⟨0, 1/2, 0⟩, ⟨0, 1, 0⟩, mat0⟩ ⟨⟨0, 2, 0⟩, ⟨1/2, -1, 0⟩⟩ 0
      ((2 : ℝ) : WithTop ℝ) = some ⟨⟨3/4, 1/2, 0⟩, ⟨0, 1, 0⟩, 3/2, true⟩ := by
  unfold Plane.hit
  simp only [Vec3.dot, Vec3.sub_x, Vec3.sub_y, Vec3.sub_z, WithTop.coe_lt_coe]
  norm_num [HitRecord.new, Ray.at', Vec3.dot]
  ext <;> norm_num

/-- Shared concrete evaluation: with the upper bound tightened to `3/2`, the
    same cylinder query now returns the top-cap hit at `t = 1` — the result
    the full-interval query never reports. -/
theorem Cylinder.hit_cap_example :
    Cylinder.hit ⟨⟨0, 0, 0⟩, 1, 2, mat0⟩ ⟨⟨0, 2, 0⟩, ⟨1/2, -1, 0⟩⟩ 0
      ((3/2 : ℝ) : WithTop ℝ) = some ⟨⟨1/2, 1, 0⟩, ⟨0, 1, 0⟩, 1, true⟩ := by
  unfold Cylinder.hit Cylinder.side Cylinder.cap
  simp only [Vec3.dot, Vec3.sub_x, Vec3.sub_y, Vec3.sub_z, WithTop.coe_lt_coe,
    WithTop.coe_le_coe]
  norm_num [Ray.at']
  norm_num [HitRecord.new, Vec3.dot]
  ext <;> norm_num

/-- C2 counterexample: the two orderings of the same two-object scene
    (cylinder and plane) return different hits for the same ray and interval:
    cylinder-first reports the plane at `t = 3/2`, plane-first reports the
    cylinder's top cap at `t = 1` — the shrinking `t_max` exposes a cap hit
    the full-interval cylinder query never returns. -/
theorem claim2_counterexample :
    ([Prim.cylinder ⟨⟨0, 0, 0⟩, 1, 2, mat0⟩,
        Prim.plane ⟨⟨0, 1/2, 0⟩, ⟨0, 1, 0⟩, mat0⟩] : List Prim).Perm
      [Prim.plane ⟨⟨0, 1/2, 0⟩, ⟨0, 1, 0⟩, mat0⟩,
        Prim.cylinder ⟨⟨0, 0, 0⟩, 1, 2, mat0⟩] ∧
    Scene.hit ⟨[Prim.cylinder ⟨⟨0, 0, 0⟩, 1, 2, mat0⟩,
        Prim.plane ⟨⟨0, 1/2, 0⟩, ⟨0, 1, 0⟩, mat0⟩], [], none, Vec3.zero⟩
      ⟨⟨0, 2, 0⟩, ⟨1/2, -1, 0⟩⟩ 0 ((100 : ℝ) : WithTop ℝ)
      = some (⟨⟨3/4, 1/2, 0⟩, ⟨0, 1, 0⟩, 3/2, true⟩,
          Prim.plane ⟨⟨0, 1/2, 0⟩, ⟨0, 1, 0⟩, mat0⟩) ∧
    Scene.hit ⟨[Prim.plane ⟨⟨0, 1/2, 0⟩, ⟨0, 1, 0⟩, mat0⟩,
        Prim.cylinder ⟨⟨0, 0, 0⟩, 1, 2, mat0⟩], [], none, Vec3.zero⟩
      ⟨⟨0, 2, 0⟩, ⟨1/2, -1, 0⟩⟩ 0 ((100 : ℝ) : WithTop ℝ)
      = some (⟨⟨1/2, 1, 0⟩, ⟨0, 1, 0⟩, 1, true⟩,
          Prim.cylinder ⟨⟨0, 0, 0⟩, 1, 2, mat0⟩) ∧
    ((3/2 : ℝ) ≠ (1 : ℝ)) := by
  refine ⟨List.Perm.swap _ _ _, ?_, ?_, by norm_num⟩
  · unfold Scene.hit
    simp only [List.foldl_cons, List.foldl_nil, Scene.hitStep, Prim.hit]
    rw [Cylinder.hit_lateral_example]
    simp only []
    rw [show ((⟨⟨1, 0, 0⟩, ⟨-1, 0, 0⟩, 2, false⟩ : HitRecord).t : WithTop ℝ)
      = ((2 : ℝ) : WithTop ℝ) from rfl]
    rw [Plane.hit_example_2]
  · unfold Scene.hit
    simp only [List.foldl_cons, List.foldl_nil, Scene.hitStep, Prim.hit]
    rw [Plane.hit_example_100]
    simp only []
    rw [show ((⟨⟨3/4, 1/2, 0⟩, ⟨0, 1, 0⟩, 3/2, true⟩ : HitRecord).t : WithTop ℝ)
      = ((3/2 : ℝ) : WithTop ℝ) from rfl]
    rw [Cylinder.hit_cap_example]

/-- Full-interval hit of the plane `y = 1` from the origin along `+y`. -/
theorem Plane.hit_top_example_1 :
    Plane.hit ⟨⟨0, 1, 0⟩, ⟨0, 1, 0⟩, mat0⟩ ⟨⟨0, 0, 0⟩, ⟨0, 1, 0⟩⟩ 0 ⊤
      = some ⟨⟨0, 1, 0⟩, ⟨0, -1, 0⟩, 1, false⟩ := by
  unfold Plane.hit
  simp only [Vec3.dot, Vec3.sub_x, Vec3.sub_y, Vec3.sub_z, not_top_lt]
  norm_num [HitRecord.new, Ray.at', Vec3.dot]
  constructor
  · ext <;> norm_num
  · ext <;> norm_num

/-- Full-interval hit of the plane `y = 2` from the origin along `+y`. -/
theorem Plane.hit_top_example_2 :
    Plane.hit ⟨⟨0, 2, 0⟩, ⟨0, 1, 0⟩, mat0⟩ ⟨⟨0, 0, 0⟩, ⟨0, 1, 0⟩⟩ 0 ⊤
      = some ⟨⟨0, 2, 0⟩, ⟨0, -1, 0⟩, 2, false⟩ := by
  unfold Plane.hit
  simp only [Vec3.dot, Vec3.sub_x, Vec3.sub_y, Vec3.sub_z, not_top_lt]
  norm_num [HitRecord.new, Ray.at', Vec3.dot]
  constructor
  · ext <;> norm_num
  · ext <;> norm_num

/-- C2 witness: for a cylinder-free scene of two parallel planes with
    distinct hit parameters (1 and 2), both orders of the object list give
    the same scene hit. -/
theorem claim2_witness :
    Scene.hit ⟨[Prim.plane ⟨⟨0, 1, 0⟩, ⟨0, 1, 0⟩, mat0⟩,
        Prim.plane ⟨⟨0, 2, 0⟩, ⟨0, 1, 0⟩, mat0⟩], [], none, Vec3.zero⟩
      ⟨⟨0, 0, 0⟩, ⟨0, 1, 0⟩⟩ 0 ((100 : ℝ) : WithTop ℝ) =
    Scene.hit ⟨[Prim.plane ⟨⟨0, 2, 0⟩, ⟨0, 1, 0⟩, mat0⟩,
        Prim.plane ⟨⟨0, 1, 0⟩, ⟨0, 1, 0⟩, mat0⟩], [], none, Vec3.zero⟩
      ⟨⟨0, 0, 0⟩, ⟨0, 1, 0⟩⟩ 0 ((100 : ℝ) : WithTop ℝ) := by
  apply claim2_scene_hit_perm
  · exact List.Perm.swap _ _ _
  · intro o ho
    simp only [List.mem_cons, List.mem_singleton] at ho
    rcases ho with rfl | rfl | h
    · rfl
    · rfl
    · exact absurd h (List.not_mem_nil o)
  · intro x hx y hy rx ry hhx hhy hxy
    simp only [List.mem_cons, List.mem_singleton] at hx hy
    have hx' : x = Prim.plane ⟨⟨0, 1, 0⟩, ⟨0, 1, 0⟩, mat0⟩ ∨
        x = Prim.plane ⟨⟨0, 2, 0⟩, ⟨0, 1, 0⟩, mat0⟩ := by tauto
    have hy' : y = Prim.plane ⟨⟨0, 1, 0⟩, ⟨0, 1, 0⟩, mat0⟩ ∨
        y = Prim.plane ⟨⟨0, 2, 0⟩, ⟨0, 1, 0⟩, mat0⟩ := by tauto
    rcases hx' with rfl | rfl <;> rcases hy' with rfl | rfl
    · exact absurd rfl hxy
    · rw [show Prim.hit (Prim.plane ⟨⟨0, 1, 0⟩, ⟨0, 1, 0⟩, mat0⟩) = Plane.hit
          ⟨⟨0, 1, 0⟩, ⟨0, 1, 0⟩, mat0⟩ from rfl, Plane.hit_top_example_1] at hhx
      rw [show Prim.hit (Prim.plane ⟨⟨0, 2, 0⟩, ⟨0, 1, 0⟩, mat0⟩) = Plane.hit
          ⟨⟨0, 2, 0⟩, ⟨0, 1, 0⟩, mat0⟩ from rfl, Plane.hit_top_example_2] at hhy
      rw [Option.some.injEq] at hhx hhy
      subst hhx
      subst hhy
      norm_num
    · rw [show Prim.hit (Prim.plane ⟨⟨0, 2, 0⟩, ⟨0, 1, 0⟩, mat0⟩) = Plane.hit
          ⟨⟨0, 2, 0⟩, ⟨0, 1, 0⟩, mat0⟩ from rfl, Plane.hit_top_example_2] at hhx
      rw [show Prim.hit (Prim.plane ⟨⟨0, 1, 0⟩, ⟨0, 1, 0⟩, mat0⟩) = Plane.hit
          ⟨⟨0, 1, 0⟩, ⟨0, 1, 0⟩, mat0⟩ from rfl, Plane.hit_top_example_1] at hhy
      rw [Option.some.injEq] at hhx hhy
      subst hhx
      subst hhy
      norm_num
    · exact absurd rfl hxy

/-! ## Claims C6 and C9: the render pipeline -/

/-- Componentwise membership in the unit color cube `[0,1]³`. -/
def inUnitRange (v : Vec3) : Prop :=
  (0 ≤ v.x ∧ v.x ≤ 1) ∧ (0 ≤ v.y ∧ v.y ≤ 1) ∧ (0 ≤ v.z ∧ v.z ≤ 1)

theorem rclamp_mem {x lo hi : ℝ} (h : lo ≤ hi) :
    lo ≤ rclamp x lo hi ∧ rclamp x lo hi ≤ hi := by
  unfold rclamp
  split_ifs with h1 h2 <;> constructor <;> linarith

theorem Vec3.clamp_mem (v : Vec3) : inUnitRange (v.clamp 0 1) := by
  unfold inUnitRange Vec3.clamp
  exact ⟨rclamp_mem (by norm_num), rclamp_mem (by norm_num), rclamp_mem (by norm_num)⟩

/-- Every color `ray_color` produces lies in `[0,1]³`, provided the scene's
    background color does: a hit is clamped, a miss returns the background,
    and an exhausted budget returns black. -/
theorem Scene.ray_color_mem {s : Scene} (hbg : inUnitRange s.background_color)
    (ray : Ray) (depth : ℤ) (flag : Bool) :
    inUnitRange (s.ray_color ray depth flag) := by
  rw [Scene.ray_color]
  split_ifs with h1
  · unfold inUnitRange Vec3.zero
    norm_num
  cases s.hit ray 0.001 ⊤ with
  | none => exact hbg
  | some rec =>
    obtain ⟨r, o⟩ := rec
    exact Vec3.clamp_mem _

/-- `ray_color` of a scene with no objects is the background color. -/
theorem Scene.ray_color_empty {s : Scene} (hobj : s.objects = []) (ray : Ray)
    (depth : ℤ) (flag : Bool) (hd : ¬depth ≤ 0) :
    s.ray_color ray depth flag = s.background_color := by
  rw [Scene.ray_color, if_neg hd]
  have hnone : s.hit ray 0.001 ⊤ = none := by
    unfold Scene.hit
    rw [hobj]
    rfl
  rw [hnone]

theorem Image.set_pixel_width (img : Image) (x y : ℕ) (c : Vec3) :
    (img.set_pixel x y c).width = img.width := by
  unfold Image.set_pixel
  split_ifs <;> rfl

theorem Image.set_pixel_height (img : Image) (x y : ℕ) (c : Vec3) :
    (img.set_pixel x y c).height = img.height := by
  unfold Image.set_pixel
  split_ifs <;> rfl

theorem Image.set_pixel_length (img : Image) (x y : ℕ) (c : Vec3) :
    (img.set_pixel x y c).pixels.length = img.pixels.length := by
  unfold Image.set_pixel
  split_ifs <;> simp

/-- Writing linear index `i` through `set_pixel (i % w) (i / w)`:
    in-bounds it sets exactly slot `i`, out of bounds it is a no-op. -/
theorem Image.set_pixel_linear {img : Image} {w h : ℕ} (hw : img.width = w)
    (hh : img.height = h) (i : ℕ) (c : Vec3) :
    (img.set_pixel (i % w) (i / w) c).pixels =
      if i < w * h then img.pixels.set i c else img.pixels := by
  unfold Image.set_pixel
  rw [hw, hh]
  by_cases hi : i < w * h
  · have hw0 : 0 < w := by
      rcases Nat.eq_zero_or_pos w with rfl | hw0
      · omega
      · exact hw0
    have hx : i % w < w := Nat.mod_lt _ hw0
    have hy : i / w < h := Nat.div_lt_iff_lt_mul hw0 |>.2 (by rw [Nat.mul_comm h w]; exact hi)
    rw [if_pos ⟨hx, hy⟩, if_pos hi]
    have : i / w * w + i % w = i := by
      rw [Nat.mul_comm]
      exact Nat.div_add_mod i w
    rw [this]
  · rw [if_neg ?_, if_neg hi]
    rintro ⟨hx, hy⟩
    have hw0 : 0 < w := by omega
    have : i < w * h := by
      calc i = w * (i / w) + i % w := (Nat.div_add_mod i w).symm
      _ < w * (i / w) + w := by omega
      _ = w * (i / w + 1) := by ring
      _ ≤ w * h := Nat.mul_le_mul_left w hy
    exact hi this

/-- Characterization of the pixel write-back loop of `Scene::render`: after
    folding `set_pixel` over the enumerated flat pixel list starting at
    index `n`, slot `k` holds the `(k-n)`-th new pixel when `k` is covered
    and in bounds, and is untouched otherwise. -/
theorem Image.writeLoop_spec (w h : ℕ) :
    ∀ (px : List Vec3) (n : ℕ) (img : Image), img.width = w → img.height = h →
      img.pixels.length = w * h →
      (((List.enumFrom n px).foldl
          (fun im ip => im.set_pixel (ip.1 % w) (ip.1 / w) ip.2) img).width = w ∧
        ((List.enumFrom n px).foldl
          (fun im ip => im.set_pixel (ip.1 % w) (ip.1 / w) ip.2) img).height = h ∧
        ((List.enumFrom n px).foldl
          (fun im ip => im.set_pixel (ip.1 % w) (ip.1 / w) ip.2) img).pixels.length
          = w * h) ∧
      ∀ k, ((List.enumFrom n px).foldl
          (fun im ip => im.set_pixel (ip.1 % w) (ip.1 / w) ip.2) img).pixels.getD k
          Vec3.zero =
        if n ≤ k ∧ k < n + px.length ∧ k < w * h then px.getD (k - n) Vec3.zero
        else img.pixels.getD k Vec3.zero := by
  intro px
  induction px with
  | nil =>
    intro n img hw hh hl
    refine ⟨⟨hw, hh, hl⟩, ?_⟩
    intro k
    have hno : ¬(n ≤ k ∧ k < n + ([] : List Vec3).length ∧ k < w * h) := by
      rintro ⟨h1, h2, h3⟩
      simp only [List.length_nil] at h2
      omega
    rw [if_neg hno]
    rfl
  | cons p rest ih =>
    intro n img hw hh hl
    have hstep : List.enumFrom n (p :: rest) = (n, p) :: List.enumFrom (n + 1) rest := rfl
    rw [hstep]
    simp only [List.foldl_cons]
    have hw' : (img.set_pixel (n % w) (n / w) p).width = w := by
      rw [Image.set_pixel_width, hw]
    have hh' : (img.set_pixel (n % w) (n / w) p).height = h := by
      rw [Image.set_pixel_height, hh]
    have hl' : (img.set_pixel (n % w) (n / w) p).pixels.length = w * h := by
      rw [Image.set_pixel_length, hl]
    obtain ⟨hdims, hk⟩ := ih (n + 1) (img.set_pixel (n % w) (n / w) p) hw' hh' hl'
    refine ⟨hdims, ?_⟩
    intro k
    rw [hk k]
    have hpx : (img.set_pixel (n % w) (n / w) p).pixels =
        if n < w * h then img.pixels.set n p else img.pixels :=
      Image.set_pixel_linear hw hh n p
    by_cases hc1 : n + 1 ≤ k ∧ k < n + 1 + rest.length ∧ k < w * h
    · have hcond : n ≤ k ∧ k < n + (p :: rest).length ∧ k < w * h := by
        obtain ⟨a, b, c⟩ := hc1
        simp only [List.length_cons]
        omega
      rw [if_pos hc1, if_pos hcond]
      have hsub : k - n = (k - (n + 1)) + 1 := by omega
      rw [hsub, List.getD_cons_succ]
    · rw [if_neg hc1]
      by_cases hc2 : n ≤ k ∧ k < n + (p :: rest).length ∧ k < w * h
      · have hkn : k = n := by
          obtain ⟨a, b, c⟩ := hc2
          simp only [List.length_cons] at b
          omega
        subst hkn
        rw [if_pos hc2, hpx, if_pos hc2.2.2, Nat.sub_self]
        show (img.pixels.set k p).getD k Vec3.zero = (p :: rest).getD 0 Vec3.zero
        have hlt : k < img.pixels.length := by
          rw [hl]
          exact hc2.2.2
        rw [List.getD_eq_getElem?_getD, List.getElem?_set_self hlt, Option.getD_some]
        rfl
      · rw [if_neg hc2, hpx]
        by_cases hn : n < w * h
        · rw [if_pos hn]
          rcases eq_or_ne k n with rfl | hne
          · exfalso
            apply hc2
            refine ⟨le_refl _, ?_, hn⟩
            simp only [List.length_cons]
            omega
          · rw [List.getD_eq_getElem?_getD, List.getElem?_set_ne (Ne.symm hne),
              List.getD_eq_getElem?_getD]
        · rw [if_neg hn]

theorem flatten_length_uniform (w : ℕ) :
    ∀ (rows : List (List Vec3)), (∀ r ∈ rows, r.length = w) →
      rows.flatten.length = rows.length * w := by
  intro rows
  induction rows with
  | nil =>
    intro _
    simp
  | cons r rest ih =>
    intro hr
    simp only [List.flatten_cons, List.length_append, List.length_cons,
      ih (fun r' hr' => hr r' (List.mem_cons_of_mem r hr')), hr r (List.mem_cons_self r rest)]
    ring

theorem flatten_grid_getD (w : ℕ) :
    ∀ (rows : List (List Vec3)), (∀ r ∈ rows, r.length = w) →
      ∀ (x y : ℕ), x < w → y < rows.length →
      rows.flatten.getD (y * w + x) Vec3.zero = (rows.getD y []).getD x Vec3.zero := by
  intro rows
  induction rows with
  | nil =>
    intro _ x y _ hy
    exact absurd hy (by simp)
  | cons r rest ih =>
    intro hr x y hx hy
    simp only [List.flatten_cons]
    cases y with
    | zero =>
      simp only [Nat.zero_mul, Nat.zero_add]
      have hxr : x < r.length := by
        rw [hr r (List.mem_cons_self r rest)]
        exact hx
      rw [List.getD_eq_getElem?_getD, List.getElem?_append, if_pos hxr,
        ← List.getD_eq_getElem?_getD]
      rfl
    | succ y' =>
      have hge : r.length ≤ (y' + 1) * w + x := by
        rw [hr r (List.mem_cons_self r rest)]
        calc w ≤ (y' + 1) * w := Nat.le_mul_of_pos_left w (Nat.succ_pos y')
        _ ≤ (y' + 1) * w + x := Nat.le_add_right _ _
      rw [List.getD_eq_getElem?_getD, List.getElem?_append, if_neg (Nat.not_lt.2 hge),
        ← List.getD_eq_getElem?_getD]
      have hidx : (y' + 1) * w + x - r.length = y' * w + x := by
        rw [hr r (List.mem_cons_self r rest)]
        have : (y' + 1) * w = y' * w + w := by ring
        omega
      rw [hidx, ih (fun r' hr' => hr r' (List.mem_cons_of_mem r hr')) x y' hx
        (by simpa using Nat.lt_of_succ_lt_succ (by simpa using hy))]
      rfl

/-- The row-major pixel list `Scene::render` computes. -/
def Scene.pixelList (s : Scene) (cam : Camera) (w h : ℕ) (flag : Bool) : List Vec3 :=
  ((List.range h).map
    (fun j => (List.range w).map (fun i => s.pixelColor cam w h i j flag))).flatten

theorem Scene.pixelList_length (s : Scene) (cam : Camera) (w h : ℕ) (flag : Bool) :
    (s.pixelList cam w h flag).length = h * w := by
  unfold Scene.pixelList
  rw [flatten_length_uniform w _ ?_, List.length_map, List.length_range]
  intro r hr
  simp only [List.mem_map, List.mem_range] at hr
  obtain ⟨j, -, rfl⟩ := hr
  simp

theorem Scene.pixelList_getD (s : Scene) (cam : Camera) (w h : ℕ) (flag : Bool)
    (x y : ℕ) (hx : x < w) (hy : y < h) :
    (s.pixelList cam w h flag).getD (y * w + x) Vec3.zero =
      s.pixelColor cam w h x y flag := by
  unfold Scene.pixelList
  rw [flatten_grid_getD w _ ?_ x y hx (by simpa using hy)]
  · have hrow : ((List.range h).map
        (fun j => (List.range w).map (fun i => s.pixelColor cam w h i j flag))).getD y []
        = (List.range w).map (fun i => s.pixelColor cam w h i y flag) := by
      rw [List.getD_eq_getElem?_getD, List.getElem?_map]
      rw [List.getElem?_range hy]
      rfl
    rw [hrow, List.getD_eq_getElem?_getD, List.getElem?_map, List.getElem?_range hx]
    rfl
  · intro r hr
    simp only [List.mem_map, List.mem_range] at hr
    obtain ⟨j, -, rfl⟩ := hr
    simp

/-- Core characterization of `Scene::render`: with a camera set, it returns
    an image of the same dimensions in which every in-bounds cell `(x, y)`
    holds exactly `pixelColor (camera, scene, x, y, flag)` — each pixel is an
    independent pure function of those inputs. -/
theorem Scene.render_pixel (s : Scene) (cam : Camera) (hcam : s.camera = some cam)
    (w h : ℕ) (flag : Bool) :
    ∃ img', s.render (Image.new w h) flag = some img' ∧
      img'.width = w ∧ img'.height = h ∧
      ∀ x y, x < w → y < h →
        img'.get_pixel x y = s.pixelColor cam w h x y flag := by
  unfold Scene.render
  rw [hcam]
  simp only [Option.some.injEq, exists_eq_left']
  simp only [show (Image.new w h).width = w from rfl,
    show (Image.new w h).height = h from rfl,
    show ∀ l : List Vec3, l.enum = List.enumFrom 0 l from fun l => rfl]
  rw [show ((List.range h).map
      (fun j => (List.range w).map (fun i => s.pixelColor cam w h i j flag))).flatten
      = s.pixelList cam w h flag from rfl]
  have hnew_w : (Image.new w h).width = w := rfl
  have hnew_h : (Image.new w h).height = h := rfl
  have hnew_l : (Image.new w h).pixels.length = w * h := by
    unfold Image.new
    simp
  have hspec := Image.writeLoop_spec w h (s.pixelList cam w h flag) 0 (Image.new w h)
    hnew_w hnew_h hnew_l
  obtain ⟨⟨hsw, hsh, hsl⟩, hsk⟩ := hspec
  refine ⟨hsw, hsh, ?_⟩
  intro x y hx hy
  unfold Image.get_pixel
  rw [if_pos (by rw [hsw, hsh]; exact ⟨hx, hy⟩), hsw]
  have hyx : y * w + x < w * h := by
    calc y * w + x < y * w + w := by omega
    _ = (y + 1) * w := by ring
    _ ≤ h * w := Nat.mul_le_mul_right w hy
    _ = w * h := Nat.mul_comm h w
  have hylen : y * w + x < 0 + (s.pixelList cam w h flag).length := by
    rw [Nat.zero_add, s.pixelList_length, ← Nat.mul_comm w h]
    exact hyx
  rw [hsk (y * w + x), if_pos ⟨Nat.zero_le _, hylen, hyx⟩, Nat.sub_zero]
  exact s.pixelList_getD cam w h flag x y hx hy

/-- C9: each pixel of the rendered image is a pure function of the camera,
    the scene, the pixel coordinates and the reflection toggle — the model
    of the parallel map writes every cell exactly once with `pixelColor`,
    so a re-render reproduces the identical image value. -/
theorem claim9_pixel_purity :
    ∀ (s : Scene) (cam : Camera) (w h : ℕ) (flag : Bool) (img' : Image),
      s.camera = some cam →
      s.render (Image.new w h) flag = some img' →
      ∀ x y, x < w → y < h →
        img'.get_pixel x y = s.pixelColor cam w h x y flag := by
  intro s cam w h flag img' hcam hr x y hx hy
  obtain ⟨i2, hi2, -, -, hpix⟩ := Scene.render_pixel s cam hcam w h flag
  rw [hr, Option.some.injEq] at hi2
  rw [hi2]
  exact hpix x y hx hy

/-- C6 (amended): when the scene's background color lies in `[0,1]³`, every
    in-bounds cell of the rendered image lies in `[0,1]³` (hit pixels are
    clamped; miss pixels return the background, which the source does not
    clamp). -/
theorem claim6_render_range :
    ∀ (s : Scene) (cam : Camera) (w h : ℕ) (flag : Bool) (img' : Image),
      s.camera = some cam →
      inUnitRange s.background_color →
      s.render (Image.new w h) flag = some img' →
      ∀ x y, x < w → y < h → inUnitRange (img'.get_pixel x y) := by
  intro s cam w h flag img' hcam hbg hr x y hx hy
  obtain ⟨i2, hi2, -, -, hpix⟩ := Scene.render_pixel s cam hcam w h flag
  rw [hr, Option.some.injEq] at hi2
  rw [hi2, hpix x y hx hy]
  unfold Scene.pixelColor
  exact Scene.ray_color_mem hbg _ _ _

/-- C6 counterexample: a background color of `(2,0,0)` flows to the pixel
    grid unclamped — the miss branch returns `background_color` without a
    clamp, so the claim fails for out-of-range backgrounds. -/
theorem claim6_counterexample :
    ∃ img', Scene.render ⟨[], [], some ⟨Vec3.zero, Vec3.zero, Vec3.zero, 0, 0, Vec3.zero,
        Vec3.zero, Vec3.zero, Vec3.zero, Vec3.zero, Vec3.zero⟩, ⟨2, 0, 0⟩⟩
        (Image.new 2 2) false = some img' ∧
      img'.get_pixel 0 0 = ⟨2, 0, 0⟩ ∧ ¬inUnitRange (⟨2, 0, 0⟩ : Vec3) := by
  obtain ⟨img', hr, -, -, hpix⟩ := Scene.render_pixel
    ⟨[], [], some ⟨Vec3.zero, Vec3.zero, Vec3.zero, 0, 0, Vec3.zero,
      Vec3.zero, Vec3.zero, Vec3.zero, Vec3.zero, Vec3.zero⟩, ⟨2, 0, 0⟩⟩ _ rfl 2 2 false
  refine ⟨img', hr, ?_, ?_⟩
  · rw [hpix 0 0 (by norm_num) (by norm_num)]
    unfold Scene.pixelColor
    exact Scene.ray_color_empty rfl _ 5 false (by norm_num)
  · unfold inUnitRange
    norm_num

/-- C6 witness: with an in-range background `(1/2,1/2,1/2)`, the rendered
    pixel `(0,0)` of a 2×2 image lies in `[0,1]³`. -/
theorem claim6_witness :
    ∃ img', Scene.render ⟨[], [], some ⟨Vec3.zero, Vec3.zero, Vec3.zero, 0, 0, Vec3.zero,
        Vec3.zero, Vec3.zero, Vec3.zero, Vec3.zero, Vec3.zero⟩, ⟨1/2, 1/2, 1/2⟩⟩
        (Image.new 2 2) false = some img' ∧
      inUnitRange (img'.get_pixel 0 0) := by
  obtain ⟨img', hr, -, -, -⟩ := Scene.render_pixel
    ⟨[], [], some ⟨Vec3.zero, Vec3.zero, Vec3.zero, 0, 0, Vec3.zero,
      Vec3.zero, Vec3.zero, Vec3.zero, Vec3.zero, Vec3.zero⟩, ⟨1/2, 1/2, 1/2⟩⟩ _ rfl 2 2 false
  refine ⟨img', hr, ?_⟩
  exact claim6_render_range _ _ 2 2 false img' rfl
    (by unfold inUnitRange; norm_num) hr 0 0 (by norm_num) (by norm_num)

/-- C9 witness: the rendered pixel `(1,1)` of the same scene equals the
    per-pixel pure function `pixelColor` at `(1,1)`. -/
theorem claim9_witness :
    ∃ img', Scene.render ⟨[], [], some ⟨Vec3.zero, Vec3.zero, Vec3.zero, 0, 0, Vec3.zero,
        Vec3.zero, Vec3.zero, Vec3.zero, Vec3.zero, Vec3.zero⟩, ⟨1/4, 1/4, 1/4⟩⟩
        (Image.new 2 2) true = some img' ∧
      img'.get_pixel 1 1 = Scene.pixelColor ⟨[], [], some ⟨Vec3.zero, Vec3.zero, Vec3.zero,
        0, 0, Vec3.zero, Vec3.zero, Vec3.zero, Vec3.zero, Vec3.zero, Vec3.zero⟩,
        ⟨1/4, 1/4, 1/4⟩⟩ ⟨Vec3.zero, Vec3.zero, Vec3.zero, 0, 0, Vec3.zero, Vec3.zero,
        Vec3.zero, Vec3.zero, Vec3.zero, Vec3.zero⟩ 2 2 1 1 true := by
  obtain ⟨img', hr, -, -, -⟩ := Scene.render_pixel
    ⟨[], [], some ⟨Vec3.zero, Vec3.zero, Vec3.zero, 0, 0, Vec3.zero,
      Vec3.zero, Vec3.zero, Vec3.zero, Vec3.zero, Vec3.zero⟩, ⟨1/4, 1/4, 1/4⟩⟩ _ rfl 2 2 true
  exact ⟨img', hr, claim9_pixel_purity _ _ 2 2 true img' rfl hr 1 1
    (by norm_num) (by norm_num)⟩
